import Mathlib

/-!
Shallow embedding of the VoiceHearth processor pipeline
(`src/pipeline.ts`, function `processRecording`) and proofs about it.

External collaborators (Supabase metadata store and storage, the global
`fetch`, fluent-ffmpeg / ffprobe) are modelled by an `Env` oracle that
fixes the outcome of every external call.  Running the pipeline against
an `Env` produces the ordered trace of observable effects (status-sink
writes, downloads, ffmpeg invocations, the upload, the workspace
directory operations) together with the value returned or the error
re-raised to the caller.  The job record and the workspace-directory
state are derived by replaying the trace.
-/

namespace VoiceHearth

/-- The processing steps reported to the status record, in pipeline order
(`ProcessingStep` in src/pipeline.ts, lines 8-14). -/
inductive ProcessingStep where
  | downloading
  | stitching
  | polishing
  | mixing_music
  | encoding
  | uploading
deriving DecidableEq, Repr

/-- Position of a step in the fixed pipeline ordering. -/
def stepIdx : ProcessingStep → Nat
  | .downloading => 0
  | .stitching => 1
  | .polishing => 2
  | .mixing_music => 3
  | .encoding => 4
  | .uploading => 5

/-- `ProcessOptions` (src/pipeline.ts, lines 16-22). -/
structure ProcessOptions where
  sessionId : String
  storyTitle : String
  readerName : Option String
  musicTrack : Option String
  purchaseId : String
deriving DecidableEq, Repr

/-- One row of the `recording_pages` query result (src/pipeline.ts, lines
84-89).  The query filters out rows whose `audio_url` is null, so the
audio reference is a plain `String` here. -/
structure RecordingPage where
  page_index : Int
  audio_url : String
  duration_seconds : Option Rat
deriving DecidableEq, Repr

/-- The `duration` option of the amix filter (`duration=first` in
src/pipeline.ts, line 207). -/
inductive MixDurationPolicy where
  | longest
  | first
  | shortest
deriving DecidableEq, Repr

/-- Structured form of the complex filter built for the music mix
(src/pipeline.ts, lines 203-208): aloop, atrim, afade in, afade out,
volume on the music chain, then amix of voice with the music chain. -/
structure MixGraph where
  loopForever : Bool
  trimDuration : Rat
  fadeInStart : Rat
  fadeInDur : Rat
  fadeOutStart : Rat
  fadeOutDur : Rat
  musicVolume : Rat
  mixInputs : Nat
  mixPolicy : MixDurationPolicy
  dropoutTransition : Rat
deriving DecidableEq, Repr

/-- One fluent-ffmpeg invocation, by call site in src/pipeline.ts:
page WAV conversion (117-123), silence synthesis (131-140), concat over
the manifest (154-162), highpass+loudnorm polish (168-178), the music
mix (199-214), and the MP3 encode (232-240). -/
inductive FfmpegJob where
  | toWav (input output : String)
  | silence (duration : Rat) (output : String)
  | concatJob (listPath : String) (entries : List String) (output : String)
  | polish (input : String) (filters : List String) (output : String)
  | mix (voiceInput musicInput : String) (graph : MixGraph) (output : String)
  | encode (input bitrate : String) (metadata : List (String × String)) (output : String)
deriving DecidableEq, Repr

/-- Outcome of a `fetch(url)` call: the promise resolves with an ok
response, resolves with a non-ok response, or rejects (network error). -/
inductive FetchResult where
  | success
  | httpError
  | reject (message : String)
deriving DecidableEq, Repr

/-- Observable effects of one pipeline run, in execution order. -/
inductive Event where
  | mkdir (dir : String)
  | setStep (step : ProcessingStep)
  | dbListPages (sessionId : String)
  | getSignedUrl (audioRef : String)
  | fetchPage (url : String)
  | writeFile (path : String)
  | ffmpeg (job : FfmpegJob)
  | fetchMusic (url : String)
  | probe (path : String)
  | upload (key : String) (upsert : Bool) (contentType : String)
  | markFailed (message : String)
  | markCompleted (key : String)
  | removeDir (dir : String)
deriving DecidableEq, Repr

/-- The errors `processRecording` can raise.  `ffmpegFail`, `probeFail`
and `fetchReject` carry the message of the rejection produced by the
external engine / fetch; the others are thrown by the pipeline itself. -/
inductive PErr where
  | noPages
  | signedUrlFail (pageIndex : Int)
  | downloadFail (pageIndex : Int)
  | ffmpegFail (message : String)
  | probeFail (message : String)
  | fetchReject (message : String)
  | uploadFail (message : String)
deriving DecidableEq, Repr

/-- The `error.message` seen by the catch handler (src/pipeline.ts,
lines 92, 103, 108, 256, 264) for each error. -/
def errMessage : PErr → String
  | .noPages => "No recording pages found for session"
  | .signedUrlFail i => "Failed to get signed URL for page " ++ toString i
  | .downloadFail i => "Failed to download page " ++ toString i
  | .ffmpegFail m => m
  | .probeFail m => m
  | .fetchReject m => m
  | .uploadFail m => "Failed to upload processed MP3: " ++ m

/-- Oracle fixing the outcome of every external call.  `pagesResult`
is `none` when the `recording_pages` query reports an error or null
data, and `some rows` otherwise; `ffmpegResult` gives `some message`
when the engine invocation rejects; `probeResult` returns the error or
the (possibly absent) `format.duration`; `uploadResult` gives the
storage error message, if any; `appUrl` is `process.env.APP_URL`. -/
structure Env where
  pagesResult : Option (List RecordingPage)
  signedUrl : String → Option String
  fetch : String → FetchResult
  ffmpegResult : FfmpegJob → Option String
  probeResult : String → Except String (Option Rat)
  uploadResult : String → Option String
  appUrl : String

/-- `PAGE_GAP_SECONDS` (src/pipeline.ts, line 6). -/
def PAGE_GAP_SECONDS : Rat := 3/4

/-- A single-quote character, for the concat manifest lines. -/
def squote : String := String.singleton (Char.ofNat 39)

/-- One manifest line, `file < quoted path >` (src/pipeline.ts, line 146). -/
def fileLine (p : String) : String := "file " ++ squote ++ p ++ squote

def pageRawPath (tmpDir : String) (p : RecordingPage) : String :=
  tmpDir ++ "/page-" ++ toString p.page_index ++ ".raw"

def pageWavPath (tmpDir : String) (p : RecordingPage) : String :=
  tmpDir ++ "/page-" ++ toString p.page_index ++ ".wav"

/-- The audio filter chain of the polish stage (src/pipeline.ts, 170-173). -/
def polishFilters : List String := ["highpass=f=80", "loudnorm=I=-16:TP=-1.5:LRA=11"]

/-- The music filter graph built at src/pipeline.ts lines 203-208:
loop the music forever, trim to the probed voice duration, fade in over
the first 3 seconds, fade out over 5 seconds starting at
`max(0, voiceDuration - 5)`, attenuate to volume 0.1, and amix two
inputs with `duration=first` and `dropout_transition=2`. -/
def mixGraph (voiceDuration : Rat) : MixGraph :=
  { loopForever := true
    trimDuration := voiceDuration
    fadeInStart := 0
    fadeInDur := 3
    fadeOutStart := max 0 (voiceDuration - 5)
    fadeOutDur := 5
    musicVolume := 1/10
    mixInputs := 2
    mixPolicy := .first
    dropoutTransition := 2 }

/-- Duration semantics of the amix filter at the TranscodingEngine
boundary, as the spec documents it: with the duration-follows-first-input
policy the output lasts exactly as long as the first input, whatever the
length of the other input. -/
def amixOutputDuration : MixDurationPolicy → Rat → Rat → Rat
  | .first, firstDur, _ => firstDur
  | .longest, firstDur, otherDur => max firstDur otherDur
  | .shortest, firstDur, otherDur => min firstDur otherDur

/-- The concat manifest entries built by the loop at src/pipeline.ts
lines 144-150: each page file, with one silence entry between
consecutive pages and none before the first or after the last. -/
def buildConcatEntries : List String → String → List String
  | [], _ => []
  | [w], _ => [fileLine w]
  | w :: w2 :: ws, silencePath =>
      fileLine w :: fileLine silencePath :: buildConcatEntries (w2 :: ws) silencePath

/-- The per-page download/convert loop (src/pipeline.ts, lines 96-125):
signed URL, byte fetch, raw write, WAV conversion, collecting the WAV
paths in page order; the first failure aborts the whole pipeline. -/
def downloadPages (env : Env) (tmpDir : String) :
    List RecordingPage → List Event × Except PErr (List String)
  | [] => ([], .ok [])
  | page :: rest =>
    match env.signedUrl page.audio_url with
    | none => ([.getSignedUrl page.audio_url], .error (.signedUrlFail page.page_index))
    | some url =>
      match env.fetch url with
      | .reject m =>
        ([.getSignedUrl page.audio_url, .fetchPage url], .error (.fetchReject m))
      | .httpError =>
        ([.getSignedUrl page.audio_url, .fetchPage url], .error (.downloadFail page.page_index))
      | .success =>
        match env.ffmpegResult (.toWav (pageRawPath tmpDir page) (pageWavPath tmpDir page)) with
        | some m =>
          ([.getSignedUrl page.audio_url, .fetchPage url, .writeFile (pageRawPath tmpDir page),
            .ffmpeg (.toWav (pageRawPath tmpDir page) (pageWavPath tmpDir page))],
           .error (.ffmpegFail m))
        | none =>
          ([.getSignedUrl page.audio_url, .fetchPage url, .writeFile (pageRawPath tmpDir page),
            .ffmpeg (.toWav (pageRawPath tmpDir page) (pageWavPath tmpDir page))]
             ++ (downloadPages env tmpDir rest).1,
           (downloadPages env tmpDir rest).2.map fun ws => pageWavPath tmpDir page :: ws)

/-- The deterministic storage key `processed/{session}.mp3`
(src/pipeline.ts, line 245). -/
def storageKey (o : ProcessOptions) : String := "processed/" ++ o.sessionId ++ ".mp3"

/-- Step 6 (src/pipeline.ts, lines 242-262): upload under
`processed/{session}.mp3` with upsert, then mark completed. -/
def uploadPhase (env : Env) (o : ProcessOptions) (tmpDir mp3Path : String) :
    List Event × Except PErr String :=
  match env.uploadResult (storageKey o) with
  | some m =>
    ([.setStep .uploading, .upload (storageKey o) true "audio/mpeg"], .error (.uploadFail m))
  | none =>
    ([.setStep .uploading, .upload (storageKey o) true "audio/mpeg",
      .markCompleted (storageKey o)], .ok (storageKey o))

/-- The `-metadata` options of the encode (src/pipeline.ts, lines 224-230). -/
def encodeMetadata (o : ProcessOptions) : List (String × String) :=
  [("title", o.storyTitle), ("album", "VoiceHearth")] ++
    (match o.readerName with
     | some n => [("artist", "Read by " ++ n)]
     | none => [])

/-- The MP3 encode invocation (src/pipeline.ts, lines 232-240). -/
def encodeJobOf (o : ProcessOptions) (tmpDir inputForEncode : String) : FfmpegJob :=
  .encode inputForEncode "192k" (encodeMetadata o) (tmpDir ++ "/output.mp3")

/-- Step 5 (src/pipeline.ts, lines 220-240): encode the chosen input to
MP3 at 192k with metadata, then continue with the upload. -/
def encodePhase (env : Env) (o : ProcessOptions) (tmpDir inputForEncode : String) :
    List Event × Except PErr String :=
  match env.ffmpegResult (encodeJobOf o tmpDir inputForEncode) with
  | some m =>
    ([.setStep .encoding, .ffmpeg (encodeJobOf o tmpDir inputForEncode)], .error (.ffmpegFail m))
  | none =>
    ([.setStep .encoding, .ffmpeg (encodeJobOf o tmpDir inputForEncode)]
       ++ (uploadPhase env o tmpDir (tmpDir ++ "/output.mp3")).1,
     (uploadPhase env o tmpDir (tmpDir ++ "/output.mp3")).2)

/-- `{APP_URL}/music/{musicTrack}.mp3` (src/pipeline.ts, line 187). -/
def musicUrlOf (env : Env) (track : String) : String :=
  env.appUrl ++ "/music/" ++ track ++ ".mp3"

/-- The mix invocation (src/pipeline.ts, lines 199-214): voice input,
downloaded music input, the filter graph built from the probed voice
duration (`format.duration`, defaulted to 0 when absent), mixed output. -/
def mixJobOf (tmpDir polishedPath : String) (dOpt : Option Rat) : FfmpegJob :=
  .mix polishedPath (tmpDir ++ "/music.mp3") (mixGraph (dOpt.getD 0)) (tmpDir ++ "/mixed.wav")

/-- Step 4 (src/pipeline.ts, lines 180-218): skipped entirely when no
music track is selected; otherwise the step is advanced, the music is
fetched, and only an ok response leads to the probe + mix — a non-ok
response falls through to the encode with the polished track, while a
rejected fetch propagates out of the stage like any other error. -/
def musicPhase (env : Env) (o : ProcessOptions) (tmpDir polishedPath : String) :
    List Event × Except PErr String :=
  match o.musicTrack with
  | none => encodePhase env o tmpDir polishedPath
  | some track =>
    match env.fetch (musicUrlOf env track) with
    | .reject m =>
      ([.setStep .mixing_music, .fetchMusic (musicUrlOf env track)], .error (.fetchReject m))
    | .httpError =>
      ([.setStep .mixing_music, .fetchMusic (musicUrlOf env track)]
         ++ (encodePhase env o tmpDir polishedPath).1,
       (encodePhase env o tmpDir polishedPath).2)
    | .success =>
      match env.probeResult polishedPath with
      | .error m =>
        ([.setStep .mixing_music, .fetchMusic (musicUrlOf env track),
          .writeFile (tmpDir ++ "/music.mp3"), .probe polishedPath],
         .error (.probeFail m))
      | .ok dOpt =>
        match env.ffmpegResult (mixJobOf tmpDir polishedPath dOpt) with
        | some m =>
          ([.setStep .mixing_music, .fetchMusic (musicUrlOf env track),
            .writeFile (tmpDir ++ "/music.mp3"), .probe polishedPath,
            .ffmpeg (mixJobOf tmpDir polishedPath dOpt)], .error (.ffmpegFail m))
        | none =>
          ([.setStep .mixing_music, .fetchMusic (musicUrlOf env track),
            .writeFile (tmpDir ++ "/music.mp3"), .probe polishedPath,
            .ffmpeg (mixJobOf tmpDir polishedPath dOpt)]
             ++ (encodePhase env o tmpDir (tmpDir ++ "/mixed.wav")).1,
           (encodePhase env o tmpDir (tmpDir ++ "/mixed.wav")).2)

/-- The polish invocation (src/pipeline.ts, lines 168-178). -/
def polishJobOf (tmpDir concatenatedPath : String) : FfmpegJob :=
  .polish concatenatedPath polishFilters (tmpDir ++ "/polished.wav")

/-- Step 3 (src/pipeline.ts, lines 164-178): highpass + loudnorm. -/
def polishPhase (env : Env) (o : ProcessOptions) (tmpDir concatenatedPath : String) :
    List Event × Except PErr String :=
  match env.ffmpegResult (polishJobOf tmpDir concatenatedPath) with
  | some m =>
    ([.setStep .polishing, .ffmpeg (polishJobOf tmpDir concatenatedPath)],
     .error (.ffmpegFail m))
  | none =>
    ([.setStep .polishing, .ffmpeg (polishJobOf tmpDir concatenatedPath)]
       ++ (musicPhase env o tmpDir (tmpDir ++ "/polished.wav")).1,
     (musicPhase env o tmpDir (tmpDir ++ "/polished.wav")).2)

/-- The silence synthesis invocation (src/pipeline.ts, lines 131-140). -/
def silenceJobOf (tmpDir : String) : FfmpegJob :=
  .silence PAGE_GAP_SECONDS (tmpDir ++ "/silence.wav")

/-- The concat invocation over the manifest (src/pipeline.ts, 143-162). -/
def concatJobOf (tmpDir : String) (wavFiles : List String) : FfmpegJob :=
  .concatJob (tmpDir ++ "/concat.txt")
    (buildConcatEntries wavFiles (tmpDir ++ "/silence.wav"))
    (tmpDir ++ "/concatenated.wav")

/-- Step 2 (src/pipeline.ts, lines 127-162): synthesize the silence
clip, write the concat manifest, concatenate. -/
def stitchPhase (env : Env) (o : ProcessOptions) (tmpDir : String) (wavFiles : List String) :
    List Event × Except PErr String :=
  match env.ffmpegResult (silenceJobOf tmpDir) with
  | some m => ([.setStep .stitching, .ffmpeg (silenceJobOf tmpDir)], .error (.ffmpegFail m))
  | none =>
    match env.ffmpegResult (concatJobOf tmpDir wavFiles) with
    | some m =>
      ([.setStep .stitching, .ffmpeg (silenceJobOf tmpDir), .writeFile (tmpDir ++ "/concat.txt"),
        .ffmpeg (concatJobOf tmpDir wavFiles)], .error (.ffmpegFail m))
    | none =>
      ([.setStep .stitching, .ffmpeg (silenceJobOf tmpDir), .writeFile (tmpDir ++ "/concat.txt"),
        .ffmpeg (concatJobOf tmpDir wavFiles)]
         ++ (polishPhase env o tmpDir (tmpDir ++ "/concatenated.wav")).1,
       (polishPhase env o tmpDir (tmpDir ++ "/concatenated.wav")).2)

/-- Step 1 (src/pipeline.ts, lines 81-125): advance to `downloading`,
query the usable pages (an error, null data or an empty result all throw
the `No recording pages found` error), then run the download loop. -/
def downloadPhase (env : Env) (o : ProcessOptions) (tmpDir : String) :
    List Event × Except PErr String :=
  match env.pagesResult with
  | none => ([.setStep .downloading, .dbListPages o.sessionId], .error .noPages)
  | some pages =>
    if pages.isEmpty then
      ([.setStep .downloading, .dbListPages o.sessionId], .error .noPages)
    else
      match (downloadPages env tmpDir pages).2 with
      | .error e =>
        ([.setStep .downloading, .dbListPages o.sessionId]
           ++ (downloadPages env tmpDir pages).1, .error e)
      | .ok wavFiles =>
        ([.setStep .downloading, .dbListPages o.sessionId]
           ++ (downloadPages env tmpDir pages).1
           ++ (stitchPhase env o tmpDir wavFiles).1,
         (stitchPhase env o tmpDir wavFiles).2)

/-- Result of one `processRecording` invocation: the effect trace and
the value returned / error re-raised to the caller. -/
structure RunResult where
  trace : List Event
  result : Except PErr String
deriving Repr

/-- The workspace directory `path.join("/tmp", sessionId)`
(src/pipeline.ts, line 75). -/
def tmpDirOf (o : ProcessOptions) : String := "/tmp/" ++ o.sessionId

/-- `processRecording` (src/pipeline.ts, lines 72-276): make the
workspace, run the stages; on error, mark the job failed with the
error's message and re-raise; in all cases remove the workspace last. -/
def processRecording (env : Env) (o : ProcessOptions) : RunResult :=
  match (downloadPhase env o (tmpDirOf o)).2 with
  | .ok key =>
    { trace := Event.mkdir (tmpDirOf o) :: (downloadPhase env o (tmpDirOf o)).1
        ++ [.removeDir (tmpDirOf o)]
      result := .ok key }
  | .error e =>
    { trace := Event.mkdir (tmpDirOf o) :: (downloadPhase env o (tmpDirOf o)).1
        ++ [.markFailed (errMessage e), .removeDir (tmpDirOf o)]
      result := .error e }

/-- Terminal outcome recorded in the `purchases` row. -/
inductive JobStatus where
  | completed
  | failed
deriving DecidableEq, Repr

/-- The fields of the `purchases` row this pipeline writes
(`processing_step`, `processing_status`, `error_message`,
`final_audio_url`). -/
structure JobRecord where
  processing_step : Option ProcessingStep
  processing_status : Option JobStatus
  error_message : Option String
  final_audio_url : Option String
deriving DecidableEq, Repr

def initialJob : JobRecord := ⟨none, none, none, none⟩

/-- StatusSink semantics: how one event updates the job row
(updateStep / markFailed / markCompleted, src/pipeline.ts lines 24-52). -/
def applyEvent (j : JobRecord) : Event → JobRecord
  | .setStep s => { j with processing_step := some s }
  | .markFailed m => { j with processing_status := some .failed, error_message := some m }
  | .markCompleted k => { j with processing_status := some .completed, final_audio_url := some k }
  | _ => j

/-- The job row after a run, obtained by replaying its trace. -/
def replayJob (t : List Event) : JobRecord := t.foldl applyEvent initialJob

/-- The step values written to the StatusSink, in order. -/
def stepsOf (t : List Event) : List ProcessingStep :=
  t.filterMap fun e =>
    match e with
    | .setStep s => some s
    | _ => none

/-- Whether directory `d` exists after the trace has run. -/
def dirExistsAfter (t : List Event) (d : String) : Bool :=
  t.foldl
    (fun b e =>
      match e with
      | .mkdir x => if x = d then true else b
      | .removeDir x => if x = d then false else b
      | _ => b)
    false

/-- True when the trace fragment contains no terminal status write. -/
def terminalFree (t : List Event) : Bool :=
  t.all fun e =>
    match e with
    | .markFailed _ => false
    | .markCompleted _ => false
    | _ => true

/-- The pipeline stage an event is an action of, if any: page lookup,
signed-URL and byte fetches and the WAV conversions belong to
`downloading`; the silence and concat jobs to `stitching`; the filter
job to `polishing`; the music fetch, the probe and the mix job to
`mixing_music`; the MP3 job to `encoding`; the upload to `uploading`.
Status writes and local directory/file operations are not stage
actions. -/
def stageOfAction : Event → Option ProcessingStep
  | .dbListPages _ => some .downloading
  | .getSignedUrl _ => some .downloading
  | .fetchPage _ => some .downloading
  | .ffmpeg (.toWav _ _) => some .downloading
  | .ffmpeg (.silence _ _) => some .stitching
  | .ffmpeg (.concatJob _ _ _) => some .stitching
  | .ffmpeg (.polish _ _ _) => some .polishing
  | .fetchMusic _ => some .mixing_music
  | .probe _ => some .mixing_music
  | .ffmpeg (.mix _ _ _ _) => some .mixing_music
  | .ffmpeg (.encode _ _ _ _) => some .encoding
  | .upload _ _ _ => some .uploading
  | _ => none

/-- The set of steps already written, after scanning a trace fragment. -/
def stepsSeen (seen : List ProcessingStep) : List Event → List ProcessingStep
  | [] => seen
  | .setStep s :: rest => stepsSeen (s :: seen) rest
  | _ :: rest => stepsSeen seen rest

/-- Checks that every stage action in the trace comes after the write of
its stage's step (given the steps already seen). -/
def checkStepsPrecede (seen : List ProcessingStep) : List Event → Bool
  | [] => true
  | .setStep s :: rest => checkStepsPrecede (s :: seen) rest
  | e :: rest =>
    (match stageOfAction e with
     | some s => seen.contains s
     | none => true)
      && checkStepsPrecede seen rest

/-- Checks that no step write occurs after a terminal status write. -/
def noStepAfterTerminal (seenTerminal : Bool) : List Event → Bool
  | [] => true
  | .setStep _ :: rest => !seenTerminal && noStepAfterTerminal seenTerminal rest
  | .markFailed _ :: rest => noStepAfterTerminal true rest
  | .markCompleted _ :: rest => noStepAfterTerminal true rest
  | _ :: rest => noStepAfterTerminal seenTerminal rest

/-- Provenance of an error's message: the payload of an engine / fetch /
probe / upload failure is the message the corresponding oracle produced. -/
def errSrcOk (env : Env) : PErr → Prop
  | .ffmpegFail m => ∃ j, env.ffmpegResult j = some m
  | .probeFail m => ∃ p, env.probeResult p = .error m
  | .fetchReject m => ∃ u, env.fetch u = .reject m
  | .uploadFail m => ∃ k, env.uploadResult k = some m
  | _ => True

/-- Well-formedness of the environment: externally produced rejection
messages are non-empty (fluent-ffmpeg, ffprobe and fetch rejections
always carry a human-readable message). -/
def MsgsNonEmpty (env : Env) : Prop :=
  (∀ j m, env.ffmpegResult j = some m → m ≠ "") ∧
  (∀ p m, env.probeResult p = .error m → m ≠ "") ∧
  (∀ u m, env.fetch u = .reject m → m ≠ "")

/-- The `mixing_music` contribution to the step sequence: present only
when a music track was selected. -/
def musicTail : Option String → List ProcessingStep
  | none => []
  | some _ => [.mixing_music]

/-- The full forward step sequence of a run, depending on whether a
music track was selected. -/
def fullSeq (o : ProcessOptions) : List ProcessingStep :=
  [.downloading, .stitching, .polishing] ++ musicTail o.musicTrack ++ [.encoding, .uploading]

section ScanLemmas

theorem stepsOf_append (a b : List Event) : stepsOf (a ++ b) = stepsOf a ++ stepsOf b := by
  simp [stepsOf]

theorem terminalFree_append (a b : List Event) :
    terminalFree (a ++ b) = (terminalFree a && terminalFree b) := by
  simp [terminalFree]

theorem stepsSeen_append (seen : List ProcessingStep) (a b : List Event) :
    stepsSeen seen (a ++ b) = stepsSeen (stepsSeen seen a) b := by
  induction a generalizing seen with
  | nil => rfl
  | cons e rest ih => cases e <;> simp [stepsSeen, ih]

theorem stepsSeen_no_setStep (seen : List ProcessingStep) (a : List Event)
    (h : ∀ s, Event.setStep s ∉ a) : stepsSeen seen a = seen := by
  induction a with
  | nil => rfl
  | cons e rest ih =>
    cases e with
    | setStep s => exact absurd (List.mem_cons_self _ _) (h s)
    | _ => exact ih fun s hs => h s (List.mem_cons_of_mem _ hs)

theorem checkStepsPrecede_append (seen : List ProcessingStep) (a b : List Event) :
    checkStepsPrecede seen (a ++ b) =
      (checkStepsPrecede seen a && checkStepsPrecede (stepsSeen seen a) b) := by
  induction a generalizing seen with
  | nil => simp [checkStepsPrecede, stepsSeen]
  | cons e rest ih =>
    cases e <;> simp [checkStepsPrecede, stepsSeen, ih, Bool.and_assoc]

theorem checkStepsPrecede_of_actions (seen : List ProcessingStep) (a : List Event)
    (h : ∀ e ∈ a, (∀ s, e ≠ Event.setStep s) ∧
      ∀ s, stageOfAction e = some s → seen.contains s = true) :
    checkStepsPrecede seen a = true := by
  induction a with
  | nil => rfl
  | cons e rest ih =>
    have he := h e (List.mem_cons_self _ _)
    have hrest := ih fun x hx => h x (List.mem_cons_of_mem _ hx)
    cases e with
    | setStep s => exact absurd rfl (he.1 s)
    | _ =>
      simp only [checkStepsPrecede, Bool.and_eq_true]
      refine ⟨?_, hrest⟩
      · cases hs : stageOfAction _ with
        | none => simp
        | some s => simpa using he.2 s hs

theorem noStepAfterTerminal_append (s : Bool) (a b : List Event) :
    noStepAfterTerminal s (a ++ b) =
      (noStepAfterTerminal s a && noStepAfterTerminal (s || !terminalFree a) b) := by
  induction a generalizing s with
  | nil => simp [noStepAfterTerminal, terminalFree]
  | cons e rest ih =>
    cases e <;> simp [noStepAfterTerminal, terminalFree, ih, Bool.and_assoc]

theorem noStepAfterTerminal_of_no_setStep (s : Bool) (a : List Event)
    (h : ∀ x, Event.setStep x ∉ a) : noStepAfterTerminal s a = true := by
  induction a generalizing s with
  | nil => rfl
  | cons e rest ih =>
    cases e with
    | setStep x => exact absurd (List.mem_cons_self _ _) (h x)
    | markFailed m =>
      exact ih true fun x hx => h x (List.mem_cons_of_mem _ hx)
    | markCompleted k =>
      exact ih true fun x hx => h x (List.mem_cons_of_mem _ hx)
    | _ =>
      refine ih s fun x hx => h x (List.mem_cons_of_mem _ hx)

theorem noStepAfterTerminal_of_terminalFree (l : List Event)
    (h : terminalFree l = true) : noStepAfterTerminal false l = true := by
  induction l with
  | nil => rfl
  | cons e rest ih =>
    cases e <;> simp_all [terminalFree, noStepAfterTerminal]

theorem mem_stepsOf_of_setStep (s : ProcessingStep) (l : List Event)
    (h : Event.setStep s ∈ l) : s ∈ stepsOf l := by
  simp only [stepsOf, List.mem_filterMap]
  exact ⟨Event.setStep s, h, rfl⟩

theorem checkStepsPrecede_mem_action (s : ProcessingStep) :
    ∀ (l₁ : List Event) (seen : List ProcessingStep) (e : Event) (l₂ : List Event),
      checkStepsPrecede seen (l₁ ++ e :: l₂) = true → stageOfAction e = some s →
      s ∈ seen ∨ Event.setStep s ∈ l₁
  | [], seen, e, l₂, hc, hs => by
    left
    cases e <;> simp_all [checkStepsPrecede, stageOfAction]
  | x :: rest, seen, e, l₂, hc, hs => by
    cases x with
    | setStep s2 =>
      have hc2 : checkStepsPrecede (s2 :: seen) (rest ++ e :: l₂) = true := hc
      rcases checkStepsPrecede_mem_action s rest (s2 :: seen) e l₂ hc2 hs with h | h
      · rcases List.mem_cons.mp h with h | h
        · right; subst h; exact List.mem_cons_self _ _
        · left; exact h
      · right; exact List.mem_cons_of_mem _ h
    | _ =>
      have hc2 : checkStepsPrecede seen (rest ++ e :: l₂) = true := by
        revert hc
        simp only [List.cons_append, checkStepsPrecede, Bool.and_eq_true]
        exact fun h => h.2
      rcases checkStepsPrecede_mem_action s rest seen e l₂ hc2 hs with h | h
      · exact Or.inl h
      · exact Or.inr (List.mem_cons_of_mem _ h)

end ScanLemmas

/-- Shape of the events the page download loop can emit. -/
def DLEvent : Event → Prop := fun e =>
  (∃ r, e = Event.getSignedUrl r) ∨ (∃ u, e = Event.fetchPage u) ∨
    (∃ p, e = Event.writeFile p) ∨ (∃ a b, e = Event.ffmpeg (.toWav a b))

section DownloadLemmas

theorem downloadPages_events (env : Env) (t : String) :
    ∀ ps : List RecordingPage, ∀ e ∈ (downloadPages env t ps).1, DLEvent e := by
  intro ps
  induction ps with
  | nil => intro e he; simp [downloadPages] at he
  | cons p rest ih =>
    intro e he
    simp only [downloadPages] at he
    split at he
    · simp at he
      subst he
      simp [DLEvent]
    · split at he
      · simp at he
        rcases he with rfl | rfl <;> simp [DLEvent]
      · simp at he
        rcases he with rfl | rfl <;> simp [DLEvent]
      · split at he
        · simp at he
          rcases he with rfl | rfl | rfl | rfl <;> simp [DLEvent]
        · rw [List.mem_append] at he
          rcases he with he | he
          · simp at he
            rcases he with rfl | rfl | rfl | rfl <;> simp [DLEvent]
          · exact ih e he

theorem downloadPages_no_setStep (env : Env) (t : String) (ps : List RecordingPage) :
    ∀ s, Event.setStep s ∉ (downloadPages env t ps).1 := by
  intro s hs
  rcases downloadPages_events env t ps _ hs with ⟨r, h⟩ | ⟨u, h⟩ | ⟨p2, h⟩ | ⟨a, b, h⟩ <;>
    simp at h

theorem downloadPages_stepsOf (env : Env) (t : String) (ps : List RecordingPage) :
    stepsOf (downloadPages env t ps).1 = [] := by
  rw [stepsOf, List.filterMap_eq_nil_iff]
  intro e he
  rcases downloadPages_events env t ps e he with ⟨r, h⟩ | ⟨u, h⟩ | ⟨p2, h⟩ | ⟨a, b, h⟩ <;>
    subst h <;> rfl

theorem downloadPages_terminalFree (env : Env) (t : String) (ps : List RecordingPage) :
    terminalFree (downloadPages env t ps).1 = true := by
  rw [terminalFree, List.all_eq_true]
  intro e he
  rcases downloadPages_events env t ps e he with ⟨r, h⟩ | ⟨u, h⟩ | ⟨p2, h⟩ | ⟨a, b, h⟩ <;>
    subst h <;> rfl

theorem downloadPages_stepsSeen (env : Env) (t : String) (ps : List RecordingPage)
    (seen : List ProcessingStep) : stepsSeen seen (downloadPages env t ps).1 = seen :=
  stepsSeen_no_setStep seen _ (downloadPages_no_setStep env t ps)

theorem downloadPages_check (env : Env) (t : String) (ps : List RecordingPage)
    (seen : List ProcessingStep) (hd : seen.contains ProcessingStep.downloading = true) :
    checkStepsPrecede seen (downloadPages env t ps).1 = true := by
  apply checkStepsPrecede_of_actions
  intro e he
  rcases downloadPages_events env t ps e he with ⟨r, h⟩ | ⟨u, h⟩ | ⟨p2, h⟩ | ⟨a, b, h⟩ <;>
    subst h <;> exact ⟨fun s h2 => by simp at h2, fun s h2 => by
      simp only [stageOfAction] at h2
      first
      | (cases h2; exact hd)
      | cases h2⟩

theorem downloadPages_no_concat (env : Env) (t : String) (ps : List RecordingPage)
    (lp : String) (es : List String) (out2 : String) :
    Event.ffmpeg (.concatJob lp es out2) ∉ (downloadPages env t ps).1 := by
  intro hs
  rcases downloadPages_events env t ps _ hs with ⟨r, h⟩ | ⟨u, h⟩ | ⟨p2, h⟩ | ⟨a, b, h⟩ <;>
    simp at h

theorem downloadPages_no_mix (env : Env) (t : String) (ps : List RecordingPage)
    (v m : String) (g : MixGraph) (out2 : String) :
    Event.ffmpeg (.mix v m g out2) ∉ (downloadPages env t ps).1 := by
  intro hs
  rcases downloadPages_events env t ps _ hs with ⟨r, h⟩ | ⟨u, h⟩ | ⟨p2, h⟩ | ⟨a, b, h⟩ <;>
    simp at h

theorem downloadPages_ok (env : Env) (t : String) :
    ∀ ps ws, (downloadPages env t ps).2 = .ok ws → ws = ps.map (pageWavPath t) := by
  intro ps
  induction ps with
  | nil => intro ws h; simp [downloadPages] at h; simp [h.symm]
  | cons p rest ih =>
    intro ws h
    simp only [downloadPages] at h
    split at h
    · simp at h
    · split at h
      · simp at h
      · simp at h
      · split at h
        · simp at h
        · simp only [Except.map] at h
          split at h
          · simp at h
          · simp at h
            rename_i ws2 heq
            rw [← h, ih ws2 heq, List.map_cons]

theorem downloadPages_err (env : Env) (t : String) :
    ∀ ps e, (downloadPages env t ps).2 = .error e → errSrcOk env e := by
  intro ps
  induction ps with
  | nil => intro e h; simp [downloadPages] at h
  | cons p rest ih =>
    intro e h
    simp only [downloadPages] at h
    split at h
    · simp at h; simp [h.symm, errSrcOk]
    · split at h
      · rename_i m hf
        simp at h
        simp [h.symm, errSrcOk]
        exact ⟨_, hf⟩
      · simp at h; simp [h.symm, errSrcOk]
      · split at h
        · rename_i m hf
          simp at h
          simp [h.symm, errSrcOk]
          exact ⟨_, hf⟩
        · simp only [Except.map] at h
          split at h
          · simp at h
            rename_i e2 heq
            rw [← h]
            exact ih e2 heq
          · simp at h

/-- The events of a download loop in which every external call succeeds. -/
def dlSuccessEvents (su : String → String) (t : String) : List RecordingPage → List Event
  | [] => []
  | p :: rest =>
    [.getSignedUrl p.audio_url, .fetchPage (su p.audio_url), .writeFile (pageRawPath t p),
      .ffmpeg (.toWav (pageRawPath t p) (pageWavPath t p))] ++ dlSuccessEvents su t rest

theorem downloadPages_success (env : Env) (t : String) (su : String → String)
    (ht : ∀ a b, env.ffmpegResult (.toWav a b) = none) :
    ∀ ps, (∀ p ∈ ps, env.signedUrl p.audio_url = some (su p.audio_url)) →
      (∀ p ∈ ps, env.fetch (su p.audio_url) = .success) →
      downloadPages env t ps = (dlSuccessEvents su t ps, .ok (ps.map (pageWavPath t))) := by
  intro ps
  induction ps with
  | nil => intro _ _; simp [downloadPages, dlSuccessEvents]
  | cons p rest ih =>
    intro hs hf
    have hsp := hs p (List.mem_cons_self _ _)
    have hfp := hf p (List.mem_cons_self _ _)
    have ihr := ih (fun q hq => hs q (List.mem_cons_of_mem _ hq))
      (fun q hq => hf q (List.mem_cons_of_mem _ hq))
    simp [downloadPages, dlSuccessEvents, hsp, hfp, ht, ihr, Except.map]

theorem dlSuccessEvents_no_mix (su : String → String) (t : String) :
    ∀ (ps : List RecordingPage) (v m2 : String) (g : MixGraph) (out2 : String),
      Event.ffmpeg (.mix v m2 g out2) ∉ dlSuccessEvents su t ps := by
  intro ps
  induction ps with
  | nil => intro v m2 g out2 h; simp [dlSuccessEvents] at h
  | cons p rest ih =>
    intro v m2 g out2 h
    simp [dlSuccessEvents] at h
    exact ih v m2 g out2 h

end DownloadLemmas

section ConcatLemmas

theorem buildConcatEntries_length (s : String) :
    ∀ ws : List String, (buildConcatEntries ws s).length = 2 * ws.length - 1 := by
  intro ws
  induction ws with
  | nil => simp [buildConcatEntries]
  | cons w t ih =>
    cases t with
    | nil => simp [buildConcatEntries]
    | cons w2 t2 =>
      simp only [buildConcatEntries, List.length_cons] at ih ⊢
      omega

theorem buildConcatEntries_even (s : String) :
    ∀ (ws : List String) (k : Nat),
      (buildConcatEntries ws s)[2 * k]? = (ws[k]?).map fileLine := by
  intro ws
  induction ws with
  | nil => intro k; simp [buildConcatEntries]
  | cons w t ih =>
    intro k
    cases t with
    | nil =>
      match k with
      | 0 => simp [buildConcatEntries]
      | k + 1 =>
        have h2 : 2 * (k + 1) = 2 * k + 1 + 1 := by omega
        simp [buildConcatEntries, h2]
    | cons w2 t2 =>
      match k with
      | 0 => simp [buildConcatEntries]
      | k + 1 =>
        have h2 : 2 * (k + 1) = 2 * k + 1 + 1 := by omega
        simpa [buildConcatEntries, h2] using ih k

theorem buildConcatEntries_odd (s : String) :
    ∀ (ws : List String) (k : Nat), k + 1 < ws.length →
      (buildConcatEntries ws s)[2 * k + 1]? = some (fileLine s) := by
  intro ws
  induction ws with
  | nil => intro k hk; simp at hk
  | cons w t ih =>
    intro k hk
    cases t with
    | nil => simp at hk
    | cons w2 t2 =>
      match k with
      | 0 => simp [buildConcatEntries]
      | k + 1 =>
        have h2 : 2 * (k + 1) + 1 = 2 * k + 1 + 1 + 1 := by omega
        have hk2 : k + 1 < (w2 :: t2).length := by
          simp only [List.length_cons] at hk ⊢
          omega
        simpa [buildConcatEntries, h2] using ih k hk2

end ConcatLemmas

section PhaseLemmas

variable (env : Env) (o : ProcessOptions)

theorem uploadPhase_stepsOf (t p : String) :
    stepsOf (uploadPhase env o t p).1 = [ProcessingStep.uploading] := by
  unfold uploadPhase
  split <;> simp [stepsOf]

theorem uploadPhase_check (t p : String) (seen : List ProcessingStep) :
    checkStepsPrecede seen (uploadPhase env o t p).1 = true := by
  unfold uploadPhase
  split <;>
    simp [checkStepsPrecede, stageOfAction, List.contains_cons]

theorem uploadPhase_no_ffmpeg (t p : String) (j : FfmpegJob) :
    Event.ffmpeg j ∉ (uploadPhase env o t p).1 := by
  unfold uploadPhase
  split <;> simp

theorem uploadPhase_err (t p : String) (e : PErr)
    (h : (uploadPhase env o t p).2 = .error e) :
    terminalFree (uploadPhase env o t p).1 = true ∧ errSrcOk env e := by
  revert h
  unfold uploadPhase
  split
  · rename_i m hm
    intro h
    simp at h
    subst h
    exact ⟨rfl, ⟨_, hm⟩⟩
  · intro h
    simp at h

theorem uploadPhase_ok (t p : String) (k : String)
    (h : (uploadPhase env o t p).2 = .ok k) :
    ∃ l, (uploadPhase env o t p).1 = l ++ [Event.markCompleted k] ∧
      terminalFree l = true ∧ k = storageKey o ∧
      Event.upload k true "audio/mpeg" ∈ l := by
  revert h
  unfold uploadPhase
  split
  · intro h
    simp at h
  · intro h
    simp at h
    subst h
    exact ⟨[Event.setStep .uploading, Event.upload (storageKey o) true "audio/mpeg"],
      rfl, rfl, rfl, by simp⟩

theorem encodePhase_stepsOf (t inp : String) :
    List.Sublist (stepsOf (encodePhase env o t inp).1) [ProcessingStep.encoding, .uploading] := by
  unfold encodePhase
  split
  · simp [stepsOf]
  · rw [stepsOf_append, uploadPhase_stepsOf]
    simp [stepsOf]

theorem encodePhase_check (t inp : String) (seen : List ProcessingStep) :
    checkStepsPrecede seen (encodePhase env o t inp).1 = true := by
  unfold encodePhase
  split
  · simp [checkStepsPrecede, stageOfAction, List.contains_cons, encodeJobOf]
  · simp only [List.cons_append, List.nil_append]
    simp [checkStepsPrecede, stageOfAction, List.contains_cons, encodeJobOf, uploadPhase_check]

theorem encodePhase_ffmpeg_mem (t inp : String) (j : FfmpegJob)
    (h : Event.ffmpeg j ∈ (encodePhase env o t inp).1) :
    j = encodeJobOf o t inp := by
  revert h
  unfold encodePhase
  split
  · intro h
    simpa using h
  · intro h
    rw [List.mem_append] at h
    rcases h with h | h
    · simpa using h
    · exact absurd h (uploadPhase_no_ffmpeg env o t _ j)

theorem encodePhase_err (t inp : String) (e : PErr)
    (h : (encodePhase env o t inp).2 = .error e) :
    terminalFree (encodePhase env o t inp).1 = true ∧ errSrcOk env e := by
  revert h
  unfold encodePhase
  split
  · rename_i m hm
    intro h
    simp at h
    subst h
    exact ⟨rfl, ⟨_, hm⟩⟩
  · intro h
    have h2 : (uploadPhase env o t (t ++ "/output.mp3")).2 = .error e := h
    have h3 := uploadPhase_err env o t (t ++ "/output.mp3") e h2
    refine ⟨?_, h3.2⟩
    show terminalFree ([Event.setStep .encoding, Event.ffmpeg (encodeJobOf o t inp)]
        ++ (uploadPhase env o t (t ++ "/output.mp3")).1) = true
    rw [terminalFree_append, h3.1]
    rfl

theorem encodePhase_ok (t inp : String) (k : String)
    (h : (encodePhase env o t inp).2 = .ok k) :
    ∃ l, (encodePhase env o t inp).1 = l ++ [Event.markCompleted k] ∧
      terminalFree l = true ∧ k = storageKey o ∧
      Event.upload k true "audio/mpeg" ∈ l := by
  revert h
  unfold encodePhase
  split
  · intro h
    simp at h
  · intro h
    have h2 : (uploadPhase env o t (t ++ "/output.mp3")).2 = .ok k := h
    obtain ⟨l, hl, hfree, hk, hmem⟩ := uploadPhase_ok env o t (t ++ "/output.mp3") k h2
    refine ⟨[Event.setStep .encoding, Event.ffmpeg (encodeJobOf o t inp)] ++ l, ?_, ?_, hk, ?_⟩
    · show [Event.setStep ProcessingStep.encoding, Event.ffmpeg (encodeJobOf o t inp)]
          ++ (uploadPhase env o t (t ++ "/output.mp3")).1
        = [Event.setStep ProcessingStep.encoding, Event.ffmpeg (encodeJobOf o t inp)] ++ l
          ++ [Event.markCompleted k]
      rw [hl, List.append_assoc]
    · rw [terminalFree_append, hfree]
      rfl
    · simp [hmem]

theorem musicPhase_stepsOf (t pol : String) :
    List.Sublist (stepsOf (musicPhase env o t pol).1)
      (musicTail o.musicTrack ++ [ProcessingStep.encoding, .uploading]) := by
  unfold musicPhase
  split
  · rename_i hm
    rw [hm, musicTail]
    exact encodePhase_stepsOf env o t pol
  · rename_i track hm
    rw [hm, musicTail]
    split
    · simp only [List.cons_append, List.nil_append]
      simp [stepsOf]
    · rw [stepsOf_append]
      simp only [List.cons_append, List.nil_append]
      simp only [stepsOf, List.filterMap]
      exact List.Sublist.cons₂ _ (encodePhase_stepsOf env o t pol)
    · split
      · simp [stepsOf]
      · split
        · simp [stepsOf]
        · rw [stepsOf_append]
          simp only [stepsOf, List.filterMap]
          exact List.Sublist.cons₂ _ (encodePhase_stepsOf env o t _)

theorem musicPhase_check (t pol : String) (seen : List ProcessingStep) :
    checkStepsPrecede seen (musicPhase env o t pol).1 = true := by
  unfold musicPhase
  split
  · exact encodePhase_check env o t pol seen
  · split
    · simp [checkStepsPrecede, stageOfAction, List.contains_cons]
    · simp only [List.cons_append, List.nil_append]
      simp [checkStepsPrecede, stageOfAction, List.contains_cons, encodePhase_check]
    · split
      · simp [checkStepsPrecede, stageOfAction, List.contains_cons]
      · split
        · simp [checkStepsPrecede, stageOfAction, List.contains_cons, mixJobOf]
        · simp only [List.cons_append, List.nil_append]
          simp [checkStepsPrecede, stageOfAction, List.contains_cons, mixJobOf,
            encodePhase_check]

theorem musicPhase_err (t pol : String) (e : PErr)
    (h : (musicPhase env o t pol).2 = .error e) :
    terminalFree (musicPhase env o t pol).1 = true ∧ errSrcOk env e := by
  revert h
  unfold musicPhase
  split
  · intro h
    exact encodePhase_err env o t pol e h
  · rename_i track hm
    split
    · rename_i m hf
      intro h
      simp at h
      subst h
      exact ⟨rfl, ⟨_, hf⟩⟩
    · intro h
      have h2 : (encodePhase env o t pol).2 = .error e := h
      have h3 := encodePhase_err env o t pol e h2
      refine ⟨?_, h3.2⟩
      show terminalFree ([Event.setStep .mixing_music, Event.fetchMusic (musicUrlOf env track)]
          ++ (encodePhase env o t pol).1) = true
      rw [terminalFree_append, h3.1]
      rfl
    · split
      · rename_i m hp
        intro h
        simp at h
        subst h
        exact ⟨rfl, ⟨_, hp⟩⟩
      · rename_i dOpt hp
        split
        · rename_i m hj
          intro h
          simp at h
          subst h
          exact ⟨rfl, ⟨_, hj⟩⟩
        · intro h
          have h2 : (encodePhase env o t (t ++ "/mixed.wav")).2 = .error e := h
          have h3 := encodePhase_err env o t (t ++ "/mixed.wav") e h2
          refine ⟨?_, h3.2⟩
          show terminalFree
              ([Event.setStep .mixing_music, Event.fetchMusic (musicUrlOf env track),
                Event.writeFile (t ++ "/music.mp3"), Event.probe pol,
                Event.ffmpeg (mixJobOf t pol dOpt)]
                ++ (encodePhase env o t (t ++ "/mixed.wav")).1) = true
          rw [terminalFree_append, h3.1]
          rfl

theorem musicPhase_ok (t pol : String) (k : String)
    (h : (musicPhase env o t pol).2 = .ok k) :
    ∃ l, (musicPhase env o t pol).1 = l ++ [Event.markCompleted k] ∧
      terminalFree l = true ∧ k = storageKey o ∧
      Event.upload k true "audio/mpeg" ∈ l := by
  revert h
  unfold musicPhase
  split
  · intro h
    exact encodePhase_ok env o t pol k h
  · rename_i track hm
    split
    · intro h
      simp at h
    · intro h
      have h2 : (encodePhase env o t pol).2 = .ok k := h
      obtain ⟨l, hl, hfree, hk, hmem⟩ := encodePhase_ok env o t pol k h2
      refine ⟨[Event.setStep .mixing_music, Event.fetchMusic (musicUrlOf env track)] ++ l,
        ?_, ?_, hk, ?_⟩
      · show [Event.setStep ProcessingStep.mixing_music, Event.fetchMusic (musicUrlOf env track)]
            ++ (encodePhase env o t pol).1
          = [Event.setStep ProcessingStep.mixing_music, Event.fetchMusic (musicUrlOf env track)]
            ++ l ++ [Event.markCompleted k]
        rw [hl, List.append_assoc]
      · rw [terminalFree_append, hfree]
        rfl
      · simp [hmem]
    · split
      · intro h
        simp at h
      · rename_i dOpt hp
        split
        · intro h
          simp at h
        · intro h
          have h2 : (encodePhase env o t (t ++ "/mixed.wav")).2 = .ok k := h
          obtain ⟨l, hl, hfree, hk, hmem⟩ := encodePhase_ok env o t (t ++ "/mixed.wav") k h2
          refine ⟨[Event.setStep .mixing_music, Event.fetchMusic (musicUrlOf env track),
            Event.writeFile (t ++ "/music.mp3"), Event.probe pol,
            Event.ffmpeg (mixJobOf t pol dOpt)] ++ l, ?_, ?_, hk, ?_⟩
          · show [Event.setStep ProcessingStep.mixing_music,
                Event.fetchMusic (musicUrlOf env track),
                Event.writeFile (t ++ "/music.mp3"), Event.probe pol,
                Event.ffmpeg (mixJobOf t pol dOpt)]
                ++ (encodePhase env o t (t ++ "/mixed.wav")).1
              = [Event.setStep ProcessingStep.mixing_music,
                Event.fetchMusic (musicUrlOf env track),
                Event.writeFile (t ++ "/music.mp3"), Event.probe pol,
                Event.ffmpeg (mixJobOf t pol dOpt)] ++ l ++ [Event.markCompleted k]
            rw [hl, List.append_assoc]
          · rw [terminalFree_append, hfree]
            rfl
          · simp [hmem]

theorem musicPhase_mix_mem (t pol : String) (v m2 : String) (g : MixGraph) (out2 : String)
    (h : Event.ffmpeg (.mix v m2 g out2) ∈ (musicPhase env o t pol).1) :
    (v = pol ∧ ∃ dOpt, env.probeResult pol = .ok dOpt ∧ g = mixGraph (dOpt.getD 0)) ∧
      ∃ tr, o.musicTrack = some tr ∧ env.fetch (musicUrlOf env tr) = .success := by
  revert h
  unfold musicPhase
  split
  · intro h
    have := encodePhase_ffmpeg_mem env o t pol _ h
    simp [encodeJobOf] at this
  · rename_i track hm
    split
    · intro h
      simp at h
    · intro h
      rw [List.mem_append] at h
      rcases h with h | h
      · simp at h
      · have := encodePhase_ffmpeg_mem env o t pol _ h
        simp [encodeJobOf] at this
    · rename_i hfetch
      split
      · intro h
        simp at h
      · rename_i dOpt hp
        split
        · intro h
          simp [mixJobOf] at h
          obtain ⟨hv, hm2, hg, ho⟩ := h
          exact ⟨⟨hv, dOpt, hp, hg⟩, track, hm, hfetch⟩
        · intro h
          rw [List.mem_append] at h
          rcases h with h | h
          · simp [mixJobOf] at h
            obtain ⟨hv, hm2, hg, ho⟩ := h
            exact ⟨⟨hv, dOpt, hp, hg⟩, track, hm, hfetch⟩
          · have := encodePhase_ffmpeg_mem env o t (t ++ "/mixed.wav") _ h
            simp [encodeJobOf] at this

theorem musicPhase_no_concat (t pol : String) (lp : String) (es : List String) (out2 : String) :
    Event.ffmpeg (.concatJob lp es out2) ∉ (musicPhase env o t pol).1 := by
  intro h
  revert h
  unfold musicPhase
  split
  · intro h
    have := encodePhase_ffmpeg_mem env o t pol _ h
    simp [encodeJobOf] at this
  · rename_i track hm
    split
    · intro h
      simp at h
    · intro h
      rw [List.mem_append] at h
      rcases h with h | h
      · simp at h
      · have := encodePhase_ffmpeg_mem env o t pol _ h
        simp [encodeJobOf] at this
    · split
      · intro h
        simp at h
      · split
        · intro h
          simp [mixJobOf] at h
        · intro h
          rw [List.mem_append] at h
          rcases h with h | h
          · simp [mixJobOf] at h
          · have := encodePhase_ffmpeg_mem env o t (t ++ "/mixed.wav") _ h
            simp [encodeJobOf] at this

theorem polishPhase_stepsOf (t cat : String) :
    List.Sublist (stepsOf (polishPhase env o t cat).1)
      (ProcessingStep.polishing :: (musicTail o.musicTrack ++ [.encoding, .uploading])) := by
  unfold polishPhase
  split
  · simp [stepsOf]
  · rw [stepsOf_append]
    simp only [stepsOf, List.filterMap]
    exact List.Sublist.cons₂ _ (musicPhase_stepsOf env o t _)

theorem polishPhase_check (t cat : String) (seen : List ProcessingStep) :
    checkStepsPrecede seen (polishPhase env o t cat).1 = true := by
  unfold polishPhase
  split
  · simp [checkStepsPrecede, stageOfAction, List.contains_cons, polishJobOf]
  · simp only [List.cons_append, List.nil_append]
    simp [checkStepsPrecede, stageOfAction, List.contains_cons, polishJobOf, musicPhase_check]

theorem polishPhase_err (t cat : String) (e : PErr)
    (h : (polishPhase env o t cat).2 = .error e) :
    terminalFree (polishPhase env o t cat).1 = true ∧ errSrcOk env e := by
  revert h
  unfold polishPhase
  split
  · rename_i m hj
    intro h
    simp at h
    subst h
    exact ⟨rfl, ⟨_, hj⟩⟩
  · intro h
    have h2 : (musicPhase env o t (t ++ "/polished.wav")).2 = .error e := h
    have h3 := musicPhase_err env o t (t ++ "/polished.wav") e h2
    refine ⟨?_, h3.2⟩
    show terminalFree ([Event.setStep .polishing, Event.ffmpeg (polishJobOf t cat)]
        ++ (musicPhase env o t (t ++ "/polished.wav")).1) = true
    rw [terminalFree_append, h3.1]
    rfl

theorem polishPhase_ok (t cat : String) (k : String)
    (h : (polishPhase env o t cat).2 = .ok k) :
    ∃ l, (polishPhase env o t cat).1 = l ++ [Event.markCompleted k] ∧
      terminalFree l = true ∧ k = storageKey o ∧
      Event.upload k true "audio/mpeg" ∈ l := by
  revert h
  unfold polishPhase
  split
  · intro h
    simp at h
  · intro h
    have h2 : (musicPhase env o t (t ++ "/polished.wav")).2 = .ok k := h
    obtain ⟨l, hl, hfree, hk, hmem⟩ := musicPhase_ok env o t (t ++ "/polished.wav") k h2
    refine ⟨[Event.setStep .polishing, Event.ffmpeg (polishJobOf t cat)] ++ l, ?_, ?_, hk, ?_⟩
    · show [Event.setStep ProcessingStep.polishing, Event.ffmpeg (polishJobOf t cat)]
          ++ (musicPhase env o t (t ++ "/polished.wav")).1
        = [Event.setStep ProcessingStep.polishing, Event.ffmpeg (polishJobOf t cat)]
          ++ l ++ [Event.markCompleted k]
      rw [hl, List.append_assoc]
    · rw [terminalFree_append, hfree]
      rfl
    · simp [hmem]

theorem polishPhase_mix_mem (t cat : String) (v m2 : String) (g : MixGraph) (out2 : String)
    (h : Event.ffmpeg (.mix v m2 g out2) ∈ (polishPhase env o t cat).1) :
    (v = t ++ "/polished.wav" ∧
      ∃ dOpt, env.probeResult (t ++ "/polished.wav") = .ok dOpt ∧
        g = mixGraph (dOpt.getD 0)) ∧
      ∃ tr, o.musicTrack = some tr ∧ env.fetch (musicUrlOf env tr) = .success := by
  revert h
  unfold polishPhase
  split
  · intro h
    simp [polishJobOf] at h
  · intro h
    rw [List.mem_append] at h
    rcases h with h | h
    · simp [polishJobOf] at h
    · exact musicPhase_mix_mem env o t (t ++ "/polished.wav") v m2 g out2 h

theorem polishPhase_no_concat (t cat : String) (lp : String) (es : List String)
    (out2 : String) : Event.ffmpeg (.concatJob lp es out2) ∉ (polishPhase env o t cat).1 := by
  intro h
  revert h
  unfold polishPhase
  split
  · intro h
    simp [polishJobOf] at h
  · intro h
    rw [List.mem_append] at h
    rcases h with h | h
    · simp [polishJobOf] at h
    · exact musicPhase_no_concat env o t (t ++ "/polished.wav") lp es out2 h

theorem stitchPhase_stepsOf (t : String) (ws : List String) :
    List.Sublist (stepsOf (stitchPhase env o t ws).1)
      (ProcessingStep.stitching :: ProcessingStep.polishing
        :: (musicTail o.musicTrack ++ [.encoding, .uploading])) := by
  unfold stitchPhase
  split
  · simp [stepsOf]
  · split
    · simp [stepsOf]
    · rw [stepsOf_append]
      simp only [stepsOf, List.filterMap]
      exact List.Sublist.cons₂ _ (polishPhase_stepsOf env o t _)

theorem stitchPhase_check (t : String) (ws : List String) (seen : List ProcessingStep) :
    checkStepsPrecede seen (stitchPhase env o t ws).1 = true := by
  unfold stitchPhase
  split
  · simp [checkStepsPrecede, stageOfAction, List.contains_cons, silenceJobOf]
  · split
    · simp [checkStepsPrecede, stageOfAction, List.contains_cons, silenceJobOf, concatJobOf]
    · simp only [List.cons_append, List.nil_append]
      simp [checkStepsPrecede, stageOfAction, List.contains_cons, silenceJobOf, concatJobOf,
        polishPhase_check]

theorem stitchPhase_err (t : String) (ws : List String) (e : PErr)
    (h : (stitchPhase env o t ws).2 = .error e) :
    terminalFree (stitchPhase env o t ws).1 = true ∧ errSrcOk env e := by
  revert h
  unfold stitchPhase
  split
  · rename_i m hj
    intro h
    simp at h
    subst h
    exact ⟨rfl, ⟨_, hj⟩⟩
  · split
    · rename_i m hj
      intro h
      simp at h
      subst h
      exact ⟨rfl, ⟨_, hj⟩⟩
    · intro h
      have h2 : (polishPhase env o t (t ++ "/concatenated.wav")).2 = .error e := h
      have h3 := polishPhase_err env o t (t ++ "/concatenated.wav") e h2
      refine ⟨?_, h3.2⟩
      show terminalFree ([Event.setStep .stitching, Event.ffmpeg (silenceJobOf t),
          Event.writeFile (t ++ "/concat.txt"), Event.ffmpeg (concatJobOf t ws)]
          ++ (polishPhase env o t (t ++ "/concatenated.wav")).1) = true
      rw [terminalFree_append, h3.1]
      rfl

theorem stitchPhase_ok (t : String) (ws : List String) (k : String)
    (h : (stitchPhase env o t ws).2 = .ok k) :
    ∃ l, (stitchPhase env o t ws).1 = l ++ [Event.markCompleted k] ∧
      terminalFree l = true ∧ k = storageKey o ∧
      Event.upload k true "audio/mpeg" ∈ l := by
  revert h
  unfold stitchPhase
  split
  · intro h
    simp at h
  · split
    · intro h
      simp at h
    · intro h
      have h2 : (polishPhase env o t (t ++ "/concatenated.wav")).2 = .ok k := h
      obtain ⟨l, hl, hfree, hk, hmem⟩ := polishPhase_ok env o t (t ++ "/concatenated.wav") k h2
      refine ⟨[Event.setStep .stitching, Event.ffmpeg (silenceJobOf t),
        Event.writeFile (t ++ "/concat.txt"), Event.ffmpeg (concatJobOf t ws)] ++ l,
        ?_, ?_, hk, ?_⟩
      · show [Event.setStep ProcessingStep.stitching, Event.ffmpeg (silenceJobOf t),
            Event.writeFile (t ++ "/concat.txt"), Event.ffmpeg (concatJobOf t ws)]
            ++ (polishPhase env o t (t ++ "/concatenated.wav")).1
          = [Event.setStep ProcessingStep.stitching, Event.ffmpeg (silenceJobOf t),
            Event.writeFile (t ++ "/concat.txt"), Event.ffmpeg (concatJobOf t ws)]
            ++ l ++ [Event.markCompleted k]
        rw [hl, List.append_assoc]
      · rw [terminalFree_append, hfree]
        rfl
      · simp [hmem]

theorem stitchPhase_concat_mem (t : String) (ws : List String) (lp : String)
    (es : List String) (out2 : String)
    (h : Event.ffmpeg (.concatJob lp es out2) ∈ (stitchPhase env o t ws).1) :
    lp = t ++ "/concat.txt" ∧ es = buildConcatEntries ws (t ++ "/silence.wav") ∧
      out2 = t ++ "/concatenated.wav" := by
  revert h
  unfold stitchPhase
  split
  · intro h
    simp [silenceJobOf] at h
  · split
    · intro h
      simp [silenceJobOf, concatJobOf] at h
      exact ⟨h.1, h.2.1, h.2.2⟩
    · intro h
      rw [List.mem_append] at h
      rcases h with h | h
      · simp [silenceJobOf, concatJobOf] at h
        exact ⟨h.1, h.2.1, h.2.2⟩
      · exact absurd h (polishPhase_no_concat env o t (t ++ "/concatenated.wav") lp es out2)

theorem stitchPhase_mix_mem (t : String) (ws : List String) (v m2 : String) (g : MixGraph)
    (out2 : String) (h : Event.ffmpeg (.mix v m2 g out2) ∈ (stitchPhase env o t ws).1) :
    (v = t ++ "/polished.wav" ∧
      ∃ dOpt, env.probeResult (t ++ "/polished.wav") = .ok dOpt ∧
        g = mixGraph (dOpt.getD 0)) ∧
      ∃ tr, o.musicTrack = some tr ∧ env.fetch (musicUrlOf env tr) = .success := by
  revert h
  unfold stitchPhase
  split
  · intro h
    simp [silenceJobOf] at h
  · split
    · intro h
      simp [silenceJobOf, concatJobOf] at h
    · intro h
      rw [List.mem_append] at h
      rcases h with h | h
      · simp [silenceJobOf, concatJobOf] at h
      · exact polishPhase_mix_mem env o t (t ++ "/concatenated.wav") v m2 g out2 h

theorem downloadPhase_stepsOf (t : String) :
    List.Sublist (stepsOf (downloadPhase env o t).1) (fullSeq o) := by
  unfold downloadPhase
  split
  · simp only [fullSeq, List.cons_append, List.nil_append, stepsOf, List.filterMap]
    exact List.Sublist.cons₂ _ (List.nil_sublist _)
  · split
    · simp only [fullSeq, List.cons_append, List.nil_append, stepsOf, List.filterMap]
      exact List.Sublist.cons₂ _ (List.nil_sublist _)
    · split
      · rw [stepsOf_append, downloadPages_stepsOf]
        simp only [fullSeq, List.cons_append, List.nil_append, List.append_nil, stepsOf,
          List.filterMap]
        exact List.Sublist.cons₂ _ (List.nil_sublist _)
      · rw [stepsOf_append, stepsOf_append, downloadPages_stepsOf]
        simp only [fullSeq, List.cons_append, List.nil_append, stepsOf, List.filterMap]
        exact List.Sublist.cons₂ _ (stitchPhase_stepsOf env o t _)

theorem downloadPhase_check (t : String) (seen : List ProcessingStep) :
    checkStepsPrecede seen (downloadPhase env o t).1 = true := by
  unfold downloadPhase
  split
  · simp [checkStepsPrecede, stageOfAction, List.contains_cons]
  · split
    · simp [checkStepsPrecede, stageOfAction, List.contains_cons]
    · split
      · rw [checkStepsPrecede_append]
        refine (Bool.and_eq_true _ _).mpr ⟨?_, ?_⟩
        · simp [checkStepsPrecede, stageOfAction, List.contains_cons]
        · exact downloadPages_check env t _ _ (by simp [stepsSeen, List.contains_cons])
      · rw [checkStepsPrecede_append, checkStepsPrecede_append]
        refine (Bool.and_eq_true _ _).mpr ⟨(Bool.and_eq_true _ _).mpr ⟨?_, ?_⟩, ?_⟩
        · simp [checkStepsPrecede, stageOfAction, List.contains_cons]
        · exact downloadPages_check env t _ _ (by simp [stepsSeen, List.contains_cons])
        · exact stitchPhase_check env o t _ _

theorem downloadPhase_err (t : String) (e : PErr)
    (h : (downloadPhase env o t).2 = .error e) :
    terminalFree (downloadPhase env o t).1 = true ∧ errSrcOk env e := by
  revert h
  unfold downloadPhase
  split
  · intro h
    simp at h
    subst h
    exact ⟨rfl, trivial⟩
  · split
    · intro h
      simp at h
      subst h
      exact ⟨rfl, trivial⟩
    · split
      · rename_i e2 heq
        intro h
        simp at h
        subst h
        refine ⟨?_, downloadPages_err env t _ e2 heq⟩
        rw [terminalFree_append, downloadPages_terminalFree]
        rfl
      · rename_i ws heq
        intro h
        have h2 : (stitchPhase env o t ws).2 = .error e := h
        have h3 := stitchPhase_err env o t ws e h2
        refine ⟨?_, h3.2⟩
        show terminalFree (([Event.setStep .downloading, Event.dbListPages o.sessionId]
            ++ (downloadPages env t _).1) ++ (stitchPhase env o t ws).1) = true
        rw [terminalFree_append, terminalFree_append, downloadPages_terminalFree, h3.1]
        rfl

theorem downloadPhase_ok (t : String) (k : String)
    (h : (downloadPhase env o t).2 = .ok k) :
    ∃ l, (downloadPhase env o t).1 = l ++ [Event.markCompleted k] ∧
      terminalFree l = true ∧ k = storageKey o ∧
      Event.upload k true "audio/mpeg" ∈ l := by
  revert h
  unfold downloadPhase
  split
  · intro h
    simp at h
  · rename_i pages hpages
    split
    · intro h
      simp at h
    · split
      · intro h
        simp at h
      · rename_i ws heq
        intro h
        have h2 : (stitchPhase env o t ws).2 = .ok k := h
        obtain ⟨l, hl, hfree, hk, hmem⟩ := stitchPhase_ok env o t ws k h2
        refine ⟨([Event.setStep .downloading, Event.dbListPages o.sessionId]
          ++ (downloadPages env t pages).1) ++ l, ?_, ?_, hk, ?_⟩
        · show ([Event.setStep ProcessingStep.downloading, Event.dbListPages o.sessionId]
              ++ (downloadPages env t pages).1) ++ (stitchPhase env o t ws).1
            = ([Event.setStep ProcessingStep.downloading, Event.dbListPages o.sessionId]
              ++ (downloadPages env t pages).1) ++ l ++ [Event.markCompleted k]
          simp only [hl, List.append_assoc]
        · rw [terminalFree_append, terminalFree_append, downloadPages_terminalFree, hfree]
          rfl
        · simp [hmem]

theorem downloadPhase_concat_mem (t : String) (lp : String) (es : List String)
    (out2 : String) (h : Event.ffmpeg (.concatJob lp es out2) ∈ (downloadPhase env o t).1) :
    ∃ ps, env.pagesResult = some ps ∧ ps ≠ [] ∧ lp = t ++ "/concat.txt" ∧
      es = buildConcatEntries (ps.map (pageWavPath t)) (t ++ "/silence.wav") ∧
      out2 = t ++ "/concatenated.wav" := by
  revert h
  unfold downloadPhase
  split
  · intro h
    simp at h
  · rename_i pages hpages
    split
    · intro h
      simp at h
    · rename_i hne
      split
      · rename_i e2 heq
        intro h
        rw [List.mem_append] at h
        rcases h with h | h
        · simp at h
        · exact absurd h (downloadPages_no_concat env t pages lp es out2)
      · rename_i ws heq
        intro h
        rw [List.mem_append] at h
        rcases h with h | h
        · rw [List.mem_append] at h
          rcases h with h | h
          · simp at h
          · exact absurd h (downloadPages_no_concat env t pages lp es out2)
        · obtain ⟨h1, h2, h3⟩ := stitchPhase_concat_mem env o t ws lp es out2 h
          refine ⟨pages, hpages, ?_, h1, ?_, h3⟩
          · intro hnil
            subst hnil
            simp at hne
          · rw [h2, downloadPages_ok env t pages ws heq]

theorem downloadPhase_mix_mem (t : String) (v m2 : String) (g : MixGraph) (out2 : String)
    (h : Event.ffmpeg (.mix v m2 g out2) ∈ (downloadPhase env o t).1) :
    (v = t ++ "/polished.wav" ∧
      ∃ dOpt, env.probeResult (t ++ "/polished.wav") = .ok dOpt ∧
        g = mixGraph (dOpt.getD 0)) ∧
      ∃ tr, o.musicTrack = some tr ∧ env.fetch (musicUrlOf env tr) = .success := by
  revert h
  unfold downloadPhase
  split
  · intro h
    simp at h
  · rename_i pages hpages
    split
    · intro h
      simp at h
    · split
      · intro h
        rw [List.mem_append] at h
        rcases h with h | h
        · simp at h
        · exact absurd h (downloadPages_no_mix env t pages v m2 g out2)
      · rename_i ws heq
        intro h
        rw [List.mem_append] at h
        rcases h with h | h
        · rw [List.mem_append] at h
          rcases h with h | h
          · simp at h
          · exact absurd h (downloadPages_no_mix env t pages v m2 g out2)
        · exact stitchPhase_mix_mem env o t ws v m2 g out2 h

end PhaseLemmas

section MasterLemmas

variable (env : Env) (o : ProcessOptions)

theorem processRecording_err_char (e : PErr)
    (h : (processRecording env o).result = .error e) :
    (processRecording env o).trace
      = Event.mkdir (tmpDirOf o) :: (downloadPhase env o (tmpDirOf o)).1
        ++ [Event.markFailed (errMessage e), Event.removeDir (tmpDirOf o)] ∧
    (downloadPhase env o (tmpDirOf o)).2 = .error e := by
  revert h
  unfold processRecording
  split
  · intro h
    simp at h
  · rename_i e2 heq
    intro h
    simp at h
    subst h
    exact ⟨rfl, heq⟩

theorem processRecording_ok_char (k : String)
    (h : (processRecording env o).result = .ok k) :
    (processRecording env o).trace
      = Event.mkdir (tmpDirOf o) :: (downloadPhase env o (tmpDirOf o)).1
        ++ [Event.removeDir (tmpDirOf o)] ∧
    (downloadPhase env o (tmpDirOf o)).2 = .ok k := by
  revert h
  unfold processRecording
  split
  · rename_i k2 heq
    intro h
    simp at h
    subst h
    exact ⟨rfl, heq⟩
  · intro h
    simp at h

theorem processRecording_check :
    checkStepsPrecede [] (processRecording env o).trace = true := by
  unfold processRecording
  split <;>
    · simp only [List.cons_append, checkStepsPrecede, stageOfAction, Bool.true_and,
        List.append_eq]
      rw [checkStepsPrecede_append]
      refine (Bool.and_eq_true _ _).mpr ⟨downloadPhase_check env o _ _, ?_⟩
      simp [checkStepsPrecede, stageOfAction]

theorem processRecording_stepsOf :
    List.Sublist (stepsOf (processRecording env o).trace) (fullSeq o) := by
  unfold processRecording
  split <;>
    · simp only [List.cons_append]
      rw [show ∀ a : List Event, stepsOf (Event.mkdir (tmpDirOf o) :: a) = stepsOf a
          from fun a => rfl]
      rw [stepsOf_append]
      simp only [stepsOf, List.filterMap, List.append_nil]
      exact downloadPhase_stepsOf env o _

theorem processRecording_noStepAfterTerminal :
    noStepAfterTerminal false (processRecording env o).trace = true := by
  unfold processRecording
  split
  · rename_i k heq
    obtain ⟨l, hl, hfree, hk, hmem⟩ := downloadPhase_ok env o (tmpDirOf o) k heq
    simp only [List.cons_append, hl]
    rw [show ∀ (a : List Event) (s : Bool),
        noStepAfterTerminal s (Event.mkdir (tmpDirOf o) :: a) = noStepAfterTerminal s a
        from fun a s => rfl]
    rw [List.append_assoc, noStepAfterTerminal_append]
    refine (Bool.and_eq_true _ _).mpr ⟨noStepAfterTerminal_of_terminalFree l hfree, ?_⟩
    simp [noStepAfterTerminal]
  · rename_i e heq
    have hfree := (downloadPhase_err env o (tmpDirOf o) e heq).1
    simp only [List.cons_append]
    rw [show ∀ (a : List Event) (s : Bool),
        noStepAfterTerminal s (Event.mkdir (tmpDirOf o) :: a) = noStepAfterTerminal s a
        from fun a s => rfl]
    rw [noStepAfterTerminal_append]
    refine (Bool.and_eq_true _ _).mpr
      ⟨noStepAfterTerminal_of_terminalFree _ hfree, ?_⟩
    simp [noStepAfterTerminal]

theorem replay_fields_of_terminalFree (l : List Event) (h : terminalFree l = true) :
    ∀ j : JobRecord,
      (l.foldl applyEvent j).processing_status = j.processing_status ∧
      (l.foldl applyEvent j).error_message = j.error_message ∧
      (l.foldl applyEvent j).final_audio_url = j.final_audio_url := by
  induction l with
  | nil => intro j; exact ⟨rfl, rfl, rfl⟩
  | cons e rest ih =>
    intro j
    cases e <;> simp_all [terminalFree, applyEvent]

theorem dirExistsAfter_append_removeDir (x : List Event) (d : String) :
    dirExistsAfter (x ++ [Event.removeDir d]) d = false := by
  simp [dirExistsAfter, List.foldl_append]

theorem append_left_ne_empty (a b : String) (h : a ≠ "") : a ++ b ≠ "" := by
  intro hb
  apply h
  have h0 : (a ++ b).length = 0 := by rw [hb]; rfl
  rw [String.length_append] at h0
  have ha : a.length = 0 := by omega
  cases a with
  | mk data =>
    cases data with
    | nil => rfl
    | cons c cs => simp [String.length] at ha

theorem errMessage_ne_empty (e : PErr) (hsrc : errSrcOk env e) (hm : MsgsNonEmpty env) :
    errMessage e ≠ "" := by
  cases e with
  | noPages => simp [errMessage]
  | signedUrlFail i => exact append_left_ne_empty _ _ (by simp)
  | downloadFail i => exact append_left_ne_empty _ _ (by simp)
  | ffmpegFail m =>
    obtain ⟨j, hj⟩ := hsrc
    exact hm.1 j m hj
  | probeFail m =>
    obtain ⟨p, hp⟩ := hsrc
    exact hm.2.1 p m hp
  | fetchReject m =>
    obtain ⟨u, hu⟩ := hsrc
    exact hm.2.2 u m hu
  | uploadFail m => exact append_left_ne_empty _ _ (by simp)

theorem replay_wrap_fail (a : List Event) (d msg : String) (hfree : terminalFree a = true) :
    (replayJob (Event.mkdir d :: a ++ [Event.markFailed msg, Event.removeDir d])).processing_status
        = some JobStatus.failed ∧
      (replayJob (Event.mkdir d :: a
        ++ [Event.markFailed msg, Event.removeDir d])).error_message = some msg ∧
      (replayJob (Event.mkdir d :: a
        ++ [Event.markFailed msg, Event.removeDir d])).final_audio_url = none := by
  have h1 := replay_fields_of_terminalFree a hfree initialJob
  simp only [replayJob, List.cons_append, List.foldl_cons, List.foldl_append]
  simp only [show applyEvent initialJob (Event.mkdir d) = initialJob from rfl]
  simp only [applyEvent]
  exact ⟨rfl, rfl, h1.2.2⟩

theorem replay_wrap_ok (l : List Event) (d k : String) (hfree : terminalFree l = true) :
    (replayJob (Event.mkdir d :: (l ++ [Event.markCompleted k])
        ++ [Event.removeDir d])).processing_status = some JobStatus.completed ∧
      (replayJob (Event.mkdir d :: (l ++ [Event.markCompleted k])
        ++ [Event.removeDir d])).final_audio_url = some k ∧
      (replayJob (Event.mkdir d :: (l ++ [Event.markCompleted k])
        ++ [Event.removeDir d])).error_message = none := by
  have h1 := replay_fields_of_terminalFree l hfree initialJob
  simp only [replayJob, List.cons_append, List.append_assoc, List.foldl_cons, List.foldl_append]
  simp only [show applyEvent initialJob (Event.mkdir d) = initialJob from rfl]
  simp only [applyEvent]
  exact ⟨rfl, rfl, h1.2.1⟩

theorem processRecording_ok_replay (k : String)
    (h : (processRecording env o).result = .ok k) :
    k = storageKey o ∧
      (replayJob (processRecording env o).trace).processing_status
        = some JobStatus.completed ∧
      (replayJob (processRecording env o).trace).final_audio_url = some k ∧
      (replayJob (processRecording env o).trace).error_message = none ∧
      Event.upload k true "audio/mpeg" ∈ (processRecording env o).trace := by
  obtain ⟨htr, hdp⟩ := processRecording_ok_char env o k h
  obtain ⟨l, hl, hfree, hk, hmem⟩ := downloadPhase_ok env o (tmpDirOf o) k hdp
  rw [htr, hl]
  have hr := replay_wrap_ok l (tmpDirOf o) k hfree
  exact ⟨hk, hr.1, hr.2.1, hr.2.2, by simp [hmem]⟩

theorem processRecording_ffmpeg_mem (j : FfmpegJob)
    (h : Event.ffmpeg j ∈ (processRecording env o).trace) :
    Event.ffmpeg j ∈ (downloadPhase env o (tmpDirOf o)).1 := by
  revert h
  unfold processRecording
  split <;>
    · intro h
      simp only [List.cons_append] at h
      simpa using h

end MasterLemmas

/-! Concrete fixtures for witness runs. -/

def wPage0 : RecordingPage := ⟨0, "a0", none⟩

def wPage1 : RecordingPage := ⟨1, "a1", none⟩

/-- An environment in which every external call succeeds; the probe
reports a 3-second duration. -/
def wEnvOk : Env :=
  { pagesResult := some [wPage0, wPage1]
    signedUrl := fun r => some ("https://signed/" ++ r)
    fetch := fun _ => .success
    ffmpegResult := fun _ => none
    probeResult := fun _ => .ok (some 3)
    uploadResult := fun _ => none
    appUrl := "https://app" }

def wOptsMusic : ProcessOptions := ⟨"s1", "T", some "Ana", some "calm", "p1"⟩

def wOptsPlain : ProcessOptions := ⟨"s1", "T", none, none, "p1"⟩

/-- Like `wEnvOk` but the music URL answers with a non-ok HTTP status. -/
def wEnvHttpErr : Env :=
  { wEnvOk with
      fetch := fun u => if u = "https://app/music/calm.mp3" then .httpError else .success }

/-- Like `wEnvOk` but the music fetch rejects at the network level. -/
def wEnvReject : Env :=
  { wEnvOk with
      fetch := fun u =>
        if u = "https://app/music/calm.mp3" then .reject "network error" else .success }

/-- Like `wEnvOk` but the page query reports a database error. -/
def wEnvNoPagesDb : Env := { wEnvOk with pagesResult := none }

/-- Like `wEnvOk` but the page query returns zero usable pages. -/
def wEnvNoPages : Env := { wEnvOk with pagesResult := some [] }

/-! The claims. -/

/-- C6: for a session whose page lookup yields zero usable pages, the
pipeline fails with the NoPages error ("No recording pages found for
session") before any transcoding occurs — no ffmpeg invocation appears
in the trace — and the only step recorded is the initial `downloading`
step. -/
theorem claim_C6 (env : Env) (o : ProcessOptions)
    (h : env.pagesResult = some []) :
    (processRecording env o).result = .error PErr.noPages ∧
      (∀ j : FfmpegJob, Event.ffmpeg j ∉ (processRecording env o).trace) ∧
      stepsOf (processRecording env o).trace = [ProcessingStep.downloading] := by
  have hd : downloadPhase env o (tmpDirOf o)
      = ([.setStep .downloading, .dbListPages o.sessionId], .error .noPages) := by
    simp [downloadPhase, h]
  refine ⟨?_, ?_, ?_⟩ <;> simp [processRecording, hd, errMessage, stepsOf]

/-- Witness for C6 at a concrete run: the page query returns an empty
list and the run fails with the NoPages error. -/
theorem claim_C6_witness :
    (processRecording wEnvNoPages wOptsPlain).result = .error PErr.noPages ∧
      (∀ j : FfmpegJob, Event.ffmpeg j ∉ (processRecording wEnvNoPages wOptsPlain).trace) ∧
      stepsOf (processRecording wEnvNoPages wOptsPlain).trace = [ProcessingStep.downloading] :=
  claim_C6 wEnvNoPages wOptsPlain rfl

/-- C9: a page-lookup database error produces exactly the same run as an
empty page set — the same trace, hence the same job record with the same
"No recording pages found for session" failure message — so the two are
indistinguishable in the job record. -/
theorem claim_C9 (env : Env) (o : ProcessOptions) :
    processRecording { env with pagesResult := none } o
        = processRecording { env with pagesResult := some [] } o ∧
      (processRecording { env with pagesResult := none } o).result = .error PErr.noPages ∧
      (replayJob (processRecording { env with pagesResult := none } o).trace).error_message
        = some "No recording pages found for session" ∧
      (replayJob (processRecording { env with pagesResult := none } o).trace).processing_status
        = some JobStatus.failed := by
  have hd1 : downloadPhase { env with pagesResult := none } o (tmpDirOf o)
      = ([.setStep .downloading, .dbListPages o.sessionId], .error .noPages) := by
    simp [downloadPhase]
  have hd2 : downloadPhase { env with pagesResult := some [] } o (tmpDirOf o)
      = ([.setStep .downloading, .dbListPages o.sessionId], .error .noPages) := by
    simp [downloadPhase]
  refine ⟨?_, ?_, ?_, ?_⟩ <;>
    simp [processRecording, hd1, hd2, errMessage, replayJob, applyEvent, initialJob]

/-- C8: in every run, every stage action recorded in the trace (page
lookup, signed-URL and byte fetches, every ffmpeg invocation, the music
fetch, the probe and the upload) comes after the write of its stage's
step to the StatusSink. -/
theorem claim_C8 (env : Env) (o : ProcessOptions) :
    checkStepsPrecede [] (processRecording env o).trace = true :=
  processRecording_check env o

/-- C4: the step sequence recorded to the StatusSink is strictly
increasing in the fixed pipeline order (so never backward and without
repeats), no step is written after a terminal status write, and when no
music track was selected the sequence never contains `mixing_music`. -/
theorem claim_C4 (env : Env) (o : ProcessOptions) :
    List.Pairwise (fun a b => stepIdx a < stepIdx b)
        (stepsOf (processRecording env o).trace) ∧
      noStepAfterTerminal false (processRecording env o).trace = true ∧
      (o.musicTrack = none →
        ProcessingStep.mixing_music ∉ stepsOf (processRecording env o).trace) := by
  have hsub := processRecording_stepsOf env o
  refine ⟨?_, processRecording_noStepAfterTerminal env o, ?_⟩
  · refine List.Pairwise.sublist hsub ?_
    cases hm : o.musicTrack <;> simp [fullSeq, musicTail, hm] <;> decide
  · intro hmt hmem
    have h2 := hsub.subset hmem
    rw [fullSeq, hmt] at h2
    simp [musicTail] at h2

/-- Witness for C4 at a concrete run without a music track: the step
sequence is strictly increasing and never contains `mixing_music`. -/
theorem claim_C4_witness :
    ProcessingStep.mixing_music ∉ stepsOf (processRecording wEnvOk wOptsPlain).trace ∧
      List.Pairwise (fun a b => stepIdx a < stepIdx b)
        (stepsOf (processRecording wEnvOk wOptsPlain).trace) :=
  ⟨(claim_C4 wEnvOk wOptsPlain).2.2 rfl, (claim_C4 wEnvOk wOptsPlain).1⟩

/-- C1: whenever a run re-raises an error, the job record ends with a
failed status and the raised error's message recorded (non-empty, given
that the external engines' rejection messages are non-empty, as they
always are in practice), no final artifact reference is set, and the
session workspace directory no longer exists after the run. -/
theorem claim_C1 (env : Env) (o : ProcessOptions) (e : PErr)
    (h : (processRecording env o).result = .error e) (hm : MsgsNonEmpty env) :
    (replayJob (processRecording env o).trace).processing_status = some JobStatus.failed ∧
      (replayJob (processRecording env o).trace).error_message = some (errMessage e) ∧
      errMessage e ≠ "" ∧
      (replayJob (processRecording env o).trace).final_audio_url = none ∧
      dirExistsAfter (processRecording env o).trace (tmpDirOf o) = false := by
  obtain ⟨htr, hdp⟩ := processRecording_err_char env o e h
  have herr := downloadPhase_err env o (tmpDirOf o) e hdp
  have hr := replay_wrap_fail (downloadPhase env o (tmpDirOf o)).1 (tmpDirOf o)
    (errMessage e) herr.1
  rw [htr]
  refine ⟨hr.1, hr.2.1, errMessage_ne_empty env e herr.2 hm, hr.2.2, ?_⟩
  rw [show Event.mkdir (tmpDirOf o) :: (downloadPhase env o (tmpDirOf o)).1
      ++ [Event.markFailed (errMessage e), Event.removeDir (tmpDirOf o)]
    = (Event.mkdir (tmpDirOf o) :: (downloadPhase env o (tmpDirOf o)).1
      ++ [Event.markFailed (errMessage e)]) ++ [Event.removeDir (tmpDirOf o)] by simp]
  exact dirExistsAfter_append_removeDir _ _

/-- Witness for C1 at a concrete failing run (database error on the page
lookup): the job ends failed with the NoPages message and the workspace
directory is gone. -/
theorem claim_C1_witness :
    (replayJob (processRecording wEnvNoPagesDb wOptsPlain).trace).processing_status
        = some JobStatus.failed ∧
      (replayJob (processRecording wEnvNoPagesDb wOptsPlain).trace).error_message
        = some "No recording pages found for session" ∧
      dirExistsAfter (processRecording wEnvNoPagesDb wOptsPlain).trace (tmpDirOf wOptsPlain)
        = false := by
  have hm : MsgsNonEmpty wEnvNoPagesDb :=
    ⟨fun j m hj => by simp [wEnvNoPagesDb, wEnvOk] at hj,
     fun p m hp => by simp [wEnvNoPagesDb, wEnvOk] at hp,
     fun u m hu => by simp [wEnvNoPagesDb, wEnvOk] at hu⟩
  have h := claim_C1 wEnvNoPagesDb wOptsPlain PErr.noPages rfl hm
  exact ⟨h.1, h.2.1, h.2.2.2.2⟩

/-- C5: a successful run returns the key `processed/{session}.mp3`,
records the job completed with that key as the final reference and no
error message, performs the upload with upsert (overwrite) enabled, and
any other successful run for the same session produces exactly the same
key. -/
theorem claim_C5 (env : Env) (o : ProcessOptions) (k : String)
    (h : (processRecording env o).result = .ok k) :
    k = "processed/" ++ o.sessionId ++ ".mp3" ∧
      (replayJob (processRecording env o).trace).processing_status
        = some JobStatus.completed ∧
      (replayJob (processRecording env o).trace).final_audio_url = some k ∧
      (replayJob (processRecording env o).trace).error_message = none ∧
      Event.upload k true "audio/mpeg" ∈ (processRecording env o).trace ∧
      ∀ (env2 : Env) (o2 : ProcessOptions) (k2 : String), o2.sessionId = o.sessionId →
        (processRecording env2 o2).result = .ok k2 → k2 = k := by
  obtain ⟨hk, hst, hfin, herr2, hup⟩ := processRecording_ok_replay env o k h
  refine ⟨hk, hst, hfin, herr2, hup, ?_⟩
  intro env2 o2 k2 hsess h2
  have hk2 := (processRecording_ok_replay env2 o2 k2 h2).1
  rw [hk2, hk]
  simp [storageKey, hsess]

/-- Witness for C5 at a concrete successful run: the job is completed
with the key `processed/s1.mp3` and no error message. -/
theorem claim_C5_witness :
    (replayJob (processRecording wEnvOk wOptsPlain).trace).processing_status
        = some JobStatus.completed ∧
      (replayJob (processRecording wEnvOk wOptsPlain).trace).final_audio_url
        = some "processed/s1.mp3" ∧
      (replayJob (processRecording wEnvOk wOptsPlain).trace).error_message = none := by
  have h := claim_C5 wEnvOk wOptsPlain "processed/s1.mp3" rfl
  exact ⟨h.2.1, h.2.2.1, h.2.2.2.1⟩

/-- C2: whenever the Stitch stage submits a concat manifest, the session
had a non-empty usable page list `ps`, the manifest has exactly
`2·|ps| − 1` entries, every even position `2k` is the page clip of
`ps[k]` — so the pages appear exactly in the order returned by the page
lookup, with no re-sorting — and every odd position is the silence clip,
so no silence precedes the first page or follows the last. -/
theorem claim_C2 (env : Env) (o : ProcessOptions) (lp : String) (es : List String)
    (out2 : String)
    (h : Event.ffmpeg (.concatJob lp es out2) ∈ (processRecording env o).trace) :
    ∃ ps, env.pagesResult = some ps ∧ ps ≠ [] ∧
      es.length = 2 * ps.length - 1 ∧
      (∀ k, es[2 * k]? = ((ps.map (pageWavPath (tmpDirOf o)))[k]?).map fileLine) ∧
      (∀ k, k + 1 < ps.length →
        es[2 * k + 1]? = some (fileLine (tmpDirOf o ++ "/silence.wav"))) := by
  have h2 := processRecording_ffmpeg_mem env o _ h
  obtain ⟨ps, hps, hne, hlp, hes, hout⟩ :=
    downloadPhase_concat_mem env o (tmpDirOf o) lp es out2 h2
  refine ⟨ps, hps, hne, ?_, ?_, ?_⟩
  · rw [hes, buildConcatEntries_length, List.length_map]
  · intro k
    rw [hes, buildConcatEntries_even]
  · intro k hk
    rw [hes]
    exact buildConcatEntries_odd _ _ k (by simpa using hk)

/-- Witness for C2 at a concrete two-page run: the manifest submitted to
the concat invocation has exactly three entries. -/
theorem claim_C2_witness :
    (buildConcatEntries [pageWavPath "/tmp/s1" wPage0, pageWavPath "/tmp/s1" wPage1]
      "/tmp/s1/silence.wav").length = 3 := by
  obtain ⟨ps, hps, hne, hlen, heven, hodd⟩ := claim_C2 wEnvOk wOptsPlain "/tmp/s1/concat.txt"
    (buildConcatEntries [pageWavPath "/tmp/s1" wPage0, pageWavPath "/tmp/s1" wPage1]
      "/tmp/s1/silence.wav") "/tmp/s1/concatenated.wav" (by decide)
  have hps2 : [wPage0, wPage1] = ps := by simpa [wEnvOk] using hps
  rw [hlen, ← hps2]
  rfl

/-- C7: every mix invocation submitted by the MixMusic stage uses the
filter graph built from the probed duration of its first (voice) input:
fade-in of 3 seconds starting at 0, fade-out of 5 seconds starting at
`max(0, voiceDuration − 5)` (so at 0 for a 3-second voice track), music
attenuated to volume 1/10, and a two-input amix with the
duration-follows-first-input policy, under which the output duration
equals the probed voice duration whatever the music duration. -/
theorem claim_C7 (env : Env) (o : ProcessOptions) (v m2 : String) (g : MixGraph)
    (out2 : String)
    (h : Event.ffmpeg (.mix v m2 g out2) ∈ (processRecording env o).trace) :
    ∃ dOpt, env.probeResult v = .ok dOpt ∧
      g.fadeInStart = 0 ∧ g.fadeInDur = 3 ∧
      g.fadeOutStart = max 0 (dOpt.getD 0 - 5) ∧ g.fadeOutDur = 5 ∧
      g.musicVolume = 1 / 10 ∧ g.mixPolicy = MixDurationPolicy.first ∧
      g.trimDuration = dOpt.getD 0 ∧
      (∀ musicDur, amixOutputDuration g.mixPolicy (dOpt.getD 0) musicDur = dOpt.getD 0) ∧
      (dOpt.getD 0 = 3 → g.fadeOutStart = 0) := by
  have h2 := processRecording_ffmpeg_mem env o _ h
  obtain ⟨⟨hv, dOpt, hp, hg⟩, _⟩ := downloadPhase_mix_mem env o (tmpDirOf o) v m2 g out2 h2
  subst hv
  subst hg
  refine ⟨dOpt, hp, rfl, rfl, rfl, rfl, rfl, rfl, rfl, fun md => rfl, ?_⟩
  intro h3
  rw [show (mixGraph (dOpt.getD 0)).fadeOutStart = max 0 (dOpt.getD 0 - 5) from rfl, h3]
  norm_num

/-- The trace of the all-success run with a music track, spelled out. -/
def wTraceMusic : List Event :=
  [Event.mkdir "/tmp/s1", Event.setStep .downloading, Event.dbListPages "s1",
   Event.getSignedUrl "a0", Event.fetchPage "https://signed/a0",
   Event.writeFile "/tmp/s1/page-0.raw",
   Event.ffmpeg (.toWav "/tmp/s1/page-0.raw" "/tmp/s1/page-0.wav"),
   Event.getSignedUrl "a1", Event.fetchPage "https://signed/a1",
   Event.writeFile "/tmp/s1/page-1.raw",
   Event.ffmpeg (.toWav "/tmp/s1/page-1.raw" "/tmp/s1/page-1.wav"),
   Event.setStep .stitching,
   Event.ffmpeg (.silence PAGE_GAP_SECONDS "/tmp/s1/silence.wav"),
   Event.writeFile "/tmp/s1/concat.txt",
   Event.ffmpeg (.concatJob "/tmp/s1/concat.txt"
     [fileLine "/tmp/s1/page-0.wav", fileLine "/tmp/s1/silence.wav",
      fileLine "/tmp/s1/page-1.wav"] "/tmp/s1/concatenated.wav"),
   Event.setStep .polishing,
   Event.ffmpeg (.polish "/tmp/s1/concatenated.wav" polishFilters "/tmp/s1/polished.wav"),
   Event.setStep .mixing_music, Event.fetchMusic "https://app/music/calm.mp3",
   Event.writeFile "/tmp/s1/music.mp3", Event.probe "/tmp/s1/polished.wav",
   Event.ffmpeg (.mix "/tmp/s1/polished.wav" "/tmp/s1/music.mp3" (mixGraph 3)
     "/tmp/s1/mixed.wav"),
   Event.setStep .encoding,
   Event.ffmpeg (.encode "/tmp/s1/mixed.wav" "192k"
     [("title", "T"), ("album", "VoiceHearth"), ("artist", "Read by Ana")]
     "/tmp/s1/output.mp3"),
   Event.setStep .uploading, Event.upload "processed/s1.mp3" true "audio/mpeg",
   Event.markCompleted "processed/s1.mp3", Event.removeDir "/tmp/s1"]

theorem wTraceMusic_eq : (processRecording wEnvOk wOptsMusic).trace = wTraceMusic := rfl

/-- Witness for C7 at a concrete run whose probed voice duration is 3
seconds: the fade-out of the submitted graph starts at 0. -/
theorem claim_C7_witness : (mixGraph 3).fadeOutStart = 0 := by
  obtain ⟨dOpt, hp, h1, h2, h3, h4, h5, h6, h7, h8, h9⟩ :=
    claim_C7 wEnvOk wOptsMusic "/tmp/s1/polished.wav" "/tmp/s1/music.mp3" (mixGraph 3)
      "/tmp/s1/mixed.wav" (by rw [wTraceMusic_eq]; simp [wTraceMusic])
  have hd : some (3 : Rat) = dOpt := by simpa [wEnvOk] using hp
  subst hd
  exact h9 rfl

/-- C10: wherever a music fetch appears in a run's trace, a write of the
`mixing_music` step precedes it, so `mixing_music` is in the job's
recorded step sequence even when the fetch then fails. -/
theorem claim_C10 (env : Env) (o : ProcessOptions) (u : String) (l1 l2 : List Event)
    (h : (processRecording env o).trace = l1 ++ Event.fetchMusic u :: l2) :
    Event.setStep ProcessingStep.mixing_music ∈ l1 ∧
      ProcessingStep.mixing_music ∈ stepsOf (processRecording env o).trace := by
  have hc := processRecording_check env o
  rw [h] at hc
  have h2 := checkStepsPrecede_mem_action ProcessingStep.mixing_music l1 []
    (Event.fetchMusic u) l2 hc rfl
  rcases h2 with h2 | h2
  · simp at h2
  · refine ⟨h2, ?_⟩
    rw [h]
    exact mem_stepsOf_of_setStep _ _ (List.mem_append_left _ h2)

/-- The prefix of the music-fetch-rejected run up to (excluding) the
music fetch event. -/
def wC10Prefix : List Event :=
  [Event.mkdir "/tmp/s1", Event.setStep .downloading, Event.dbListPages "s1",
   Event.getSignedUrl "a0", Event.fetchPage "https://signed/a0",
   Event.writeFile "/tmp/s1/page-0.raw",
   Event.ffmpeg (.toWav "/tmp/s1/page-0.raw" "/tmp/s1/page-0.wav"),
   Event.getSignedUrl "a1", Event.fetchPage "https://signed/a1",
   Event.writeFile "/tmp/s1/page-1.raw",
   Event.ffmpeg (.toWav "/tmp/s1/page-1.raw" "/tmp/s1/page-1.wav"),
   Event.setStep .stitching,
   Event.ffmpeg (.silence PAGE_GAP_SECONDS "/tmp/s1/silence.wav"),
   Event.writeFile "/tmp/s1/concat.txt",
   Event.ffmpeg (.concatJob "/tmp/s1/concat.txt"
     [fileLine "/tmp/s1/page-0.wav", fileLine "/tmp/s1/silence.wav",
      fileLine "/tmp/s1/page-1.wav"] "/tmp/s1/concatenated.wav"),
   Event.setStep .polishing,
   Event.ffmpeg (.polish "/tmp/s1/concatenated.wav" polishFilters "/tmp/s1/polished.wav"),
   Event.setStep .mixing_music]

/-- Witness for C10 at a concrete run whose music fetch rejects: the
`mixing_music` step write precedes the fetch, and `mixing_music` is in
the recorded step sequence even though the run then fails. -/
theorem claim_C10_witness :
    Event.setStep ProcessingStep.mixing_music ∈ wC10Prefix ∧
      ProcessingStep.mixing_music ∈ stepsOf (processRecording wEnvReject wOptsMusic).trace :=
  claim_C10 wEnvReject wOptsMusic "https://app/music/calm.mp3" wC10Prefix
    [Event.markFailed "network error", Event.removeDir "/tmp/s1"] rfl

/-- C3 counterexample: a music fetch can fail in two ways, and for one
of them the claim is false at this concrete input — with a music track
selected and the fetch rejecting at the network level (so the fetch did
not succeed), the run does not fall back: it re-raises the rejection and
records the job failed, instead of reaching completed. -/
theorem claim_C3_counterexample :
    wOptsMusic.musicTrack = some "calm" ∧
      wEnvReject.fetch (musicUrlOf wEnvReject "calm") ≠ FetchResult.success ∧
      (processRecording wEnvReject wOptsMusic).result
        = .error (PErr.fetchReject "network error") ∧
      (replayJob (processRecording wEnvReject wOptsMusic).trace).processing_status
        = some JobStatus.failed :=
  ⟨rfl, by decide, rfl, rfl⟩

/-- C3 (amended): when the music track is present and its fetch
completes with a non-ok HTTP response, the failure is swallowed: the
pipeline proceeds with the polished voice track as the encoder input,
never submits a mix invocation, and — the remaining stages succeeding —
reaches completed with no failure recorded.  (A fetch that rejects at
the network level instead propagates and fails the run, as the
counterexample shows.) -/
theorem claim_C3_amended (env : Env) (o : ProcessOptions) (track : String)
    (su : String → String) (ps : List RecordingPage)
    (hmt : o.musicTrack = some track)
    (hps : env.pagesResult = some ps) (hne : ps ≠ [])
    (hs : ∀ p ∈ ps, env.signedUrl p.audio_url = some (su p.audio_url))
    (hf : ∀ p ∈ ps, env.fetch (su p.audio_url) = .success)
    (hmusic : env.fetch (musicUrlOf env track) = .httpError)
    (hff : ∀ j, env.ffmpegResult j = none)
    (hup : ∀ k2, env.uploadResult k2 = none) :
    (processRecording env o).result = .ok ("processed/" ++ o.sessionId ++ ".mp3") ∧
      (replayJob (processRecording env o).trace).processing_status
        = some JobStatus.completed ∧
      (replayJob (processRecording env o).trace).error_message = none ∧
      Event.ffmpeg (encodeJobOf o (tmpDirOf o) (tmpDirOf o ++ "/polished.wav"))
        ∈ (processRecording env o).trace ∧
      ∀ (v m2 : String) (g : MixGraph) (out2 : String),
        Event.ffmpeg (.mix v m2 g out2) ∉ (processRecording env o).trace := by
  have hisEmpty : ps.isEmpty = false := by
    cases ps with
    | nil => exact absurd rfl hne
    | cons a l => rfl
  have hdl := downloadPages_success env (tmpDirOf o) su (fun a b => hff _) ps hs hf
  have hu : uploadPhase env o (tmpDirOf o) (tmpDirOf o ++ "/output.mp3")
      = ([.setStep .uploading, .upload (storageKey o) true "audio/mpeg",
          .markCompleted (storageKey o)], .ok (storageKey o)) := by
    simp [uploadPhase, hup]
  have hee : encodePhase env o (tmpDirOf o) (tmpDirOf o ++ "/polished.wav")
      = ([.setStep .encoding,
          .ffmpeg (encodeJobOf o (tmpDirOf o) (tmpDirOf o ++ "/polished.wav")),
          .setStep .uploading, .upload (storageKey o) true "audio/mpeg",
          .markCompleted (storageKey o)], .ok (storageKey o)) := by
    simp [encodePhase, hff, hu]
  have hmu : musicPhase env o (tmpDirOf o) (tmpDirOf o ++ "/polished.wav")
      = ([.setStep .mixing_music, .fetchMusic (musicUrlOf env track),
          .setStep .encoding,
          .ffmpeg (encodeJobOf o (tmpDirOf o) (tmpDirOf o ++ "/polished.wav")),
          .setStep .uploading, .upload (storageKey o) true "audio/mpeg",
          .markCompleted (storageKey o)], .ok (storageKey o)) := by
    simp [musicPhase, hmt, hmusic, hee]
  have hpo : polishPhase env o (tmpDirOf o) (tmpDirOf o ++ "/concatenated.wav")
      = ([.setStep .polishing,
          .ffmpeg (polishJobOf (tmpDirOf o) (tmpDirOf o ++ "/concatenated.wav")),
          .setStep .mixing_music, .fetchMusic (musicUrlOf env track),
          .setStep .encoding,
          .ffmpeg (encodeJobOf o (tmpDirOf o) (tmpDirOf o ++ "/polished.wav")),
          .setStep .uploading, .upload (storageKey o) true "audio/mpeg",
          .markCompleted (storageKey o)], .ok (storageKey o)) := by
    simp [polishPhase, hff, hmu]
  have hst : stitchPhase env o (tmpDirOf o) (ps.map (pageWavPath (tmpDirOf o)))
      = ([.setStep .stitching, .ffmpeg (silenceJobOf (tmpDirOf o)),
          .writeFile (tmpDirOf o ++ "/concat.txt"),
          .ffmpeg (concatJobOf (tmpDirOf o) (ps.map (pageWavPath (tmpDirOf o)))),
          .setStep .polishing,
          .ffmpeg (polishJobOf (tmpDirOf o) (tmpDirOf o ++ "/concatenated.wav")),
          .setStep .mixing_music, .fetchMusic (musicUrlOf env track),
          .setStep .encoding,
          .ffmpeg (encodeJobOf o (tmpDirOf o) (tmpDirOf o ++ "/polished.wav")),
          .setStep .uploading, .upload (storageKey o) true "audio/mpeg",
          .markCompleted (storageKey o)], .ok (storageKey o)) := by
    simp [stitchPhase, hff, hpo]
  have hdp : downloadPhase env o (tmpDirOf o)
      = ([Event.setStep .downloading, Event.dbListPages o.sessionId]
          ++ dlSuccessEvents su (tmpDirOf o) ps
          ++ [Event.setStep .stitching, .ffmpeg (silenceJobOf (tmpDirOf o)),
              .writeFile (tmpDirOf o ++ "/concat.txt"),
              .ffmpeg (concatJobOf (tmpDirOf o) (ps.map (pageWavPath (tmpDirOf o)))),
              .setStep .polishing,
              .ffmpeg (polishJobOf (tmpDirOf o) (tmpDirOf o ++ "/concatenated.wav")),
              .setStep .mixing_music, .fetchMusic (musicUrlOf env track),
              .setStep .encoding,
              .ffmpeg (encodeJobOf o (tmpDirOf o) (tmpDirOf o ++ "/polished.wav")),
              .setStep .uploading, .upload (storageKey o) true "audio/mpeg",
              .markCompleted (storageKey o)], .ok (storageKey o)) := by
    simp [downloadPhase, hps, hisEmpty, hdl, hst]
  have hres : (processRecording env o).result = .ok (storageKey o) := by
    simp [processRecording, hdp]
  have hrep := processRecording_ok_replay env o (storageKey o) hres
  refine ⟨hres, hrep.2.1, hrep.2.2.2.1, ?_, ?_⟩
  · simp [processRecording, hdp]
  · intro v m2 g out2 hmem
    simp [processRecording, hdp, mixJobOf, encodeJobOf, polishJobOf, silenceJobOf,
      concatJobOf] at hmem
    exact dlSuccessEvents_no_mix su (tmpDirOf o) ps v m2 g out2 hmem

/-- Witness for the amended C3 at a concrete run: the music URL answers
with a non-ok HTTP status, yet the run completes with the final key, no
error message, and no mix invocation. -/
theorem claim_C3_witness :
    (processRecording wEnvHttpErr wOptsMusic).result
        = .ok ("processed/" ++ wOptsMusic.sessionId ++ ".mp3") ∧
      (replayJob (processRecording wEnvHttpErr wOptsMusic).trace).processing_status
        = some JobStatus.completed ∧
      (replayJob (processRecording wEnvHttpErr wOptsMusic).trace).error_message = none ∧
      ∀ (v m2 : String) (g : MixGraph) (out2 : String),
        Event.ffmpeg (.mix v m2 g out2) ∉ (processRecording wEnvHttpErr wOptsMusic).trace := by
  have h := claim_C3_amended wEnvHttpErr wOptsMusic "calm" (fun r => "https://signed/" ++ r)
    [wPage0, wPage1] rfl rfl (by decide) (by decide) (by decide) (by decide)
    (fun j => rfl) (fun k2 => rfl)
  exact ⟨h.1, h.2.1, h.2.2.1, h.2.2.2.2⟩

end VoiceHearth
